import Mathlib

set_option maxHeartbeats 1000000

/-! Shallow embedding of the ttcompiler-rust pipeline: `src/token.rs`,
`src/lexer.rs`, `src/parser.rs`, `src/emitter.rs`.  Source text is modelled
as a list of characters; the Rust code reads the source byte by byte
(`self.source.as_bytes()[p] as char`), so every element stands for one byte
read as a character.  Loops of the Rust code are modelled with explicit
fuel so that every definition evaluates by kernel reduction; the wrapper
functions supply fuel that is provably sufficient, and running past the end
of the source (where the Rust loops would spin on `'\x00'` forever) is made
explicit as the `lexerOverrun` outcome. -/

abbrev Str := List Char

deriving instance DecidableEq for Except

/-- Token categories from `src/token.rs` (`enum TokenType`). -/
inductive TokenType where
  | Unknown
  | Eof
  | Newline
  | Number
  | Ident
  | String
  | Label
  | GoTo
  | Print
  | Input
  | Let
  | If
  | Then
  | EndIf
  | While
  | Repeat
  | EndWhile
  | Eq
  | Plus
  | Minus
  | Asterisk
  | Slash
  | EqEq
  | NotEq
  | Lt
  | LtEq
  | Gt
  | GtEq
deriving DecidableEq

/-- Tokens from `src/token.rs`: a lexeme together with its kind. -/
structure Token where
  text : Str
  kind : TokenType
deriving DecidableEq

/-- Keyword table of `Token::check_if_keyword` in `src/token.rs`. -/
def Token.check_if_keyword (text : Str) : TokenType :=
  if text = "LABEL".toList then .Label
  else if text = "GOTO".toList then .GoTo
  else if text = "PRINT".toList then .Print
  else if text = "INPUT".toList then .Input
  else if text = "LET".toList then .Let
  else if text = "IF".toList then .If
  else if text = "THEN".toList then .Then
  else if text = "ENDIF".toList then .EndIf
  else if text = "WHILE".toList then .While
  else if text = "REPEAT".toList then .Repeat
  else if text = "ENDWHILE".toList then .EndWhile
  else .Unknown

/-- Reserved-word versus identifier classification performed inline in the
letter arm of `Lexer::get_token`: a lexeme whose keyword lookup yields
`Unknown` is an identifier, otherwise it gets the keyword's kind. -/
def classify_ident (text : Str) : TokenType :=
  let key_word := Token.check_if_keyword text
  if key_word = .Unknown then .Ident else key_word

/-- Failure modes of the lexer.  The first four model the `abort`/`panic!`
calls in `Lexer::get_token`; `lexerOverrun` models the divergence of a Rust
scanning loop that has run past the end of the source (it then reads
`'\x00'` forever); `outOfFuel` is exhaustion of the explicit fuel of the
driver loops and never occurs for adequate fuel. -/
inductive LexErr where
  | illegalStringChar
  | expectedNotEq (c : Char)
  | illegalNumber
  | unexpectedChar
  | lexerOverrun
  | outOfFuel
deriving DecidableEq

/-- Lexer state from `src/lexer.rs`.  The Rust struct caches `cur_char`;
here it is recomputed from the position (`Lexer::next_char` establishes
exactly `cur_char = source[cur_pos]`, with `'\x00'` past the end). -/
structure Lexer where
  source : Str
  cur_pos : Nat
deriving DecidableEq

/-- Constructor `Lexer::new`: appends one newline to the source
unconditionally and advances once, leaving `cur_pos = 0`. -/
def Lexer.new (source : Str) : Lexer :=
  { source := source ++ ['\n'], cur_pos := 0 }

def Lexer.cur_char (l : Lexer) : Char := l.source.getD l.cur_pos '\x00'

/-- Lookahead `Lexer::peek`. -/
def Lexer.peek (l : Lexer) : Char := l.source.getD (l.cur_pos + 1) '\x00'

def Lexer.next_char (l : Lexer) : Lexer := { l with cur_pos := l.cur_pos + 1 }

/-- Characters skipped by `Lexer::skip_whitespace`. -/
def Lexer.is_ws (c : Char) : Bool := c = ' ' || c = '\t' || c = '\r'

def Lexer.skip_whitespace_go : Nat → Lexer → Lexer
  | 0, l => l
  | f + 1, l =>
    if Lexer.is_ws l.cur_char then Lexer.skip_whitespace_go f l.next_char else l

/-- Loop of `Lexer::skip_whitespace`; the fuel is sufficient because every
skipped character lies inside the source. -/
def Lexer.skip_whitespace (l : Lexer) : Lexer :=
  Lexer.skip_whitespace_go (l.source.length + 1) l

def Lexer.skip_comment_go : Nat → Lexer → Except LexErr Lexer
  | 0, _ => .error .outOfFuel
  | f + 1, l =>
    if l.cur_char = '\n' then .ok l
    else if l.cur_pos < l.source.length then Lexer.skip_comment_go f l.next_char
    else .error .lexerOverrun

/-- Loop of `Lexer::skip_comment`: on `'#'`, discard characters up to (not
including) the next newline. -/
def Lexer.skip_comment (l : Lexer) : Except LexErr Lexer :=
  if l.cur_char = '#' then Lexer.skip_comment_go (l.source.length + 1) l else .ok l

/-- Characters rejected inside a string literal by `Lexer::get_token`. -/
def Lexer.bad_string_char (c : Char) : Bool :=
  c = '\r' || c = '\n' || c = '\t' || c = '\\' || c = '%'

def Lexer.scan_string_go : Nat → Lexer → Except LexErr Lexer
  | 0, _ => .error .outOfFuel
  | f + 1, l =>
    if l.cur_char = '"' then .ok l
    else if Lexer.bad_string_char l.cur_char then .error .illegalStringChar
    else if l.cur_pos < l.source.length then Lexer.scan_string_go f l.next_char
    else .error .lexerOverrun

/-- String-literal scanning loop of `Lexer::get_token` (the `'"'` arm):
stop at the closing quote, abort on a disallowed character. -/
def Lexer.scan_string (l : Lexer) : Except LexErr Lexer :=
  Lexer.scan_string_go (l.source.length + 1) l

def Lexer.skip_digits_go : Nat → Lexer → Lexer
  | 0, l => l
  | f + 1, l =>
    if (l.peek).isDigit then Lexer.skip_digits_go f l.next_char else l

/-- Digit-run loop of the number arm: `while self.peek().is_ascii_digit()`. -/
def Lexer.skip_digits (l : Lexer) : Lexer :=
  Lexer.skip_digits_go (l.source.length + 1) l

/-- Models Rust `char::is_alphanumeric` on the characters this lexer can
see: the source is read as single bytes cast to `char`, so only code points
below `0x100` occur; in that range the Unicode alphanumeric characters are
the ASCII letters and digits together with the Latin-1 letters and numeric
signs listed here. -/
def rust_is_alphanumeric (c : Char) : Bool :=
  c.isAlpha || c.isDigit ||
  c.val = 0xAA || c.val = 0xB2 || c.val = 0xB3 || c.val = 0xB5 ||
  c.val = 0xB9 || c.val = 0xBA || c.val = 0xBC || c.val = 0xBD || c.val = 0xBE ||
  (0xC0 ≤ c.val && c.val ≤ 0xFF && c.val ≠ 0xD7 && c.val ≠ 0xF7)

def Lexer.skip_alnum_go : Nat → Lexer → Lexer
  | 0, l => l
  | f + 1, l =>
    if rust_is_alphanumeric l.peek then Lexer.skip_alnum_go f l.next_char else l

/-- Alphanumeric-run loop of the identifier arm:
`while self.peek().is_alphanumeric()`. -/
def Lexer.skip_alnum (l : Lexer) : Lexer :=
  Lexer.skip_alnum_go (l.source.length + 1) l

/-- Byte slice `self.source.get(start..stop)` of `src/lexer.rs`. -/
def Lexer.slice (l : Lexer) (start stop : Nat) : Str :=
  (l.source.drop start).take (stop - start)

/-- `Lexer::get_token` of `src/lexer.rs`, arm by arm.  Note the `'!'` arm:
the Rust code returns `TokenType::LtEq` for the two-character token `!=`
(while the enum also has `NotEq`, which the lexer never produces). -/
def Lexer.get_token (l0 : Lexer) : Except LexErr (Token × Lexer) :=
  let lw := l0.skip_whitespace
  match lw.skip_comment with
  | .error e => .error e
  | .ok l =>
    let c := l.cur_char
    if c = '+' then .ok (⟨[c], .Plus⟩, l.next_char)
    else if c = '-' then .ok (⟨[c], .Minus⟩, l.next_char)
    else if c = '*' then .ok (⟨[c], .Asterisk⟩, l.next_char)
    else if c = '/' then .ok (⟨[c], .Slash⟩, l.next_char)
    else if c = '"' then
      match Lexer.scan_string l.next_char with
      | .error e => .error e
      | .ok l2 =>
        .ok (⟨l2.slice (l.cur_pos + 1) l2.cur_pos, .String⟩, l2.next_char)
    else if c = '!' then
      if l.peek = '=' then
        let l1 := l.next_char
        .ok (⟨[c, l1.cur_char], .LtEq⟩, l1.next_char)
      else .error (.expectedNotEq l.peek)
    else if c = '=' then
      if l.peek = '=' then
        let l1 := l.next_char
        .ok (⟨[c, l1.cur_char], .EqEq⟩, l1.next_char)
      else .ok (⟨[c], .Eq⟩, l.next_char)
    else if c = '>' then
      if l.peek = '=' then
        let l1 := l.next_char
        .ok (⟨[c, l1.cur_char], .GtEq⟩, l1.next_char)
      else .ok (⟨[c], .Gt⟩, l.next_char)
    else if c = '<' then
      if l.peek = '=' then
        let l1 := l.next_char
        .ok (⟨[c, l1.cur_char], .LtEq⟩, l1.next_char)
      else .ok (⟨[c], .Lt⟩, l.next_char)
    else if c.isDigit then
      let start := l.cur_pos
      let l1 := l.skip_digits
      if l1.peek = '.' then
        let l2 := l1.next_char
        if !(l2.peek.isDigit) then .error .illegalNumber
        else
          let l3 := l2.skip_digits
          .ok (⟨l3.slice start (l3.cur_pos + 1), .Number⟩, l3.next_char)
      else .ok (⟨l1.slice start (l1.cur_pos + 1), .Number⟩, l1.next_char)
    else if c.isAlpha then
      let start := l.cur_pos
      let l1 := l.skip_alnum
      let text := l1.slice start (l1.cur_pos + 1)
      .ok (⟨text, classify_ident text⟩, l1.next_char)
    else if c = '\n' then .ok (⟨[c], .Newline⟩, l.next_char)
    else if c = '\x00' then .ok (⟨[c], .Eof⟩, l.next_char)
    else .error .unexpectedChar

/-- Driver that pulls tokens until `Eof` (not itself in the Rust lexer; the
parser pulls tokens one at a time).  The `Eof` token is not included in the
result. -/
def tokenize : Nat → Lexer → Except LexErr (List Token)
  | 0, _ => .error .outOfFuel
  | f + 1, l =>
    match l.get_token with
    | .error e => .error e
    | .ok (t, l') =>
      if t.kind = .Eof then .ok []
      else
        match tokenize f l' with
        | .error e => .error e
        | .ok ts => .ok (t :: ts)

/-! Parser and emitter: `src/parser.rs` and `src/emitter.rs`.  The Rust
`Parser` owns the lexer, the two-token lookahead, the symbol table, the two
label sets and (through a mutable reference) the emitter; all of that state
is gathered in one record.  `HashSet` is modelled as a duplicate-free list
in insertion order (Rust's iteration order is unspecified; the model fixes
insertion order, which only matters for which offending label the deferred
check names first).  The `abort` calls, which panic in Rust, are modelled
as `Except.error`. -/

/-- Abort messages of `src/parser.rs` plus lexical failures surfacing
through `next_token`; `outOfFuel` is exhaustion of the explicit fuel and
never occurs for adequate fuel. -/
inductive CompErr where
  | lex (e : LexErr)
  | expected (want got : TokenType)
  | invalidStatement (t : Str)
  | labelExists (t : Str)
  | undeclaredVariable (t : Str)
  | unexpectedTokenAt (t : Str)
  | expectedComparisonAt (t : Str)
  | gotoUndeclaredLabel (t : Str)
  | outOfFuel
deriving DecidableEq

/-- Combined parser and emitter state: fields of `struct Parser` in
`src/parser.rs` together with the two buffers of `struct Emitter` in
`src/emitter.rs` (`header` is the preamble, `code` the body). -/
structure PState where
  lexer : Lexer
  cur_token : Token
  peek_token : Token
  symbols : List Str
  labels_declared : List Str
  labels_gotoed : List Str
  header : Str
  code : Str
deriving DecidableEq

/-- `HashSet::insert` modelled on duplicate-free lists. -/
def hs_insert (xs : List Str) (x : Str) : List Str :=
  if x ∈ xs then xs else xs ++ [x]

/-- `Emitter::emit`. -/
def PState.emit (st : PState) (s : Str) : PState :=
  { st with code := st.code ++ s }

/-- `Emitter::emit_line`. -/
def PState.emit_line (st : PState) (s : Str) : PState :=
  { st with code := st.code ++ s ++ ['\n'] }

/-- `Emitter::header_line`. -/
def PState.header_line (st : PState) (s : Str) : PState :=
  { st with header := st.header ++ s ++ ['\n'] }

/-- `Parser::next_token`: shift peek into current, pull a fresh peek. -/
def PState.next_token (st : PState) : Except CompErr PState :=
  match st.lexer.get_token with
  | .error e => .error (.lex e)
  | .ok (t, l') =>
    .ok { st with cur_token := st.peek_token, peek_token := t, lexer := l' }

/-- `Parser::check_token`. -/
def PState.check_token (st : PState) (kind : TokenType) : Bool :=
  kind = st.cur_token.kind

/-- `Parser::match_token`. -/
def PState.match_token (st : PState) (kind : TokenType) : Except CompErr PState :=
  if st.check_token kind then st.next_token
  else .error (.expected kind st.cur_token.kind)

/-- `Parser::is_comparison_operator`. -/
def PState.is_comparison_operator (st : PState) : Bool :=
  st.check_token .Gt || st.check_token .GtEq || st.check_token .Lt ||
  st.check_token .LtEq || st.check_token .EqEq || st.check_token .NotEq

/-- Extra-newline loop shared by `Parser::nl` and the start of
`Parser::program`. -/
def skip_newlines : Nat → PState → Except CompErr PState
  | 0, _ => .error .outOfFuel
  | f + 1, st =>
    if st.check_token .Newline then
      match st.next_token with
      | .error e => .error e
      | .ok st' => skip_newlines f st'
    else .ok st

/-- `Parser::nl`: at least one newline, then any number of extras. -/
def nl (f : Nat) (st : PState) : Except CompErr PState :=
  match st.match_token .Newline with
  | .error e => .error e
  | .ok st' => skip_newlines f st'

/-- `Parser::primary`. -/
def primary (st : PState) : Except CompErr PState :=
  match st.cur_token.kind with
  | .Number => (st.emit st.cur_token.text).next_token
  | .Ident =>
    if st.cur_token.text ∈ st.symbols then (st.emit st.cur_token.text).next_token
    else .error (.undeclaredVariable st.cur_token.text)
  | _ => .error (.unexpectedTokenAt st.cur_token.text)

/-- `Parser::unary`. -/
def unary (st : PState) : Except CompErr PState :=
  if st.check_token .Plus || st.check_token .Minus then
    match (st.emit st.cur_token.text).next_token with
    | .error e => .error e
    | .ok st' => primary st'
  else primary st

def term_go : Nat → PState → Except CompErr PState
  | 0, _ => .error .outOfFuel
  | f + 1, st =>
    if st.check_token .Asterisk || st.check_token .Slash then
      match (st.emit st.cur_token.text).next_token with
      | .error e => .error e
      | .ok st' =>
        match unary st' with
        | .error e => .error e
        | .ok st'' => term_go f st''
    else .ok st

/-- `Parser::term`. -/
def term (f : Nat) (st : PState) : Except CompErr PState :=
  match unary st with
  | .error e => .error e
  | .ok st' => term_go f st'

def expression_go : Nat → PState → Except CompErr PState
  | 0, _ => .error .outOfFuel
  | f + 1, st =>
    if st.check_token .Plus || st.check_token .Minus then
      match (st.emit st.cur_token.text).next_token with
      | .error e => .error e
      | .ok st' =>
        match term f st' with
        | .error e => .error e
        | .ok st'' => expression_go f st''
    else .ok st

/-- `Parser::expression`. -/
def expression (f : Nat) (st : PState) : Except CompErr PState :=
  match term f st with
  | .error e => .error e
  | .ok st' => expression_go f st'

def comparison_go : Nat → PState → Except CompErr PState
  | 0, _ => .error .outOfFuel
  | f + 1, st =>
    if st.is_comparison_operator then
      match (st.emit st.cur_token.text).next_token with
      | .error e => .error e
      | .ok st' =>
        match expression f st' with
        | .error e => .error e
        | .ok st'' => comparison_go f st''
    else .ok st

/-- `Parser::comparison`: at least one comparison operator is required
after the first expression. -/
def comparison (f : Nat) (st : PState) : Except CompErr PState :=
  match expression f st with
  | .error e => .error e
  | .ok st' =>
    if st'.is_comparison_operator then
      match (st'.emit st'.cur_token.text).next_token with
      | .error e => .error e
      | .ok st'' =>
        match expression f st'' with
        | .error e => .error e
        | .ok st''' => comparison_go f st'''
    else .error (.expectedComparisonAt st'.cur_token.text)

mutual

/-- `Parser::statement`, arm by arm, including the trailing `self.nl()`. -/
def statement : Nat → PState → Except CompErr PState
  | 0, _ => .error .outOfFuel
  | f + 1, st =>
    let body : Except CompErr PState :=
      match st.cur_token.kind with
      | .Print =>
        match st.next_token with
        | .error e => .error e
        | .ok st1 =>
          if st1.check_token .String then
            (st1.emit_line ("printf(\"".toList ++ st1.cur_token.text ++ "\\n\");".toList)).next_token
          else
            match expression f (st1.emit "printf(\"%.2f\\n\", (float)(".toList) with
            | .error e => .error e
            | .ok st2 => .ok (st2.emit_line "));".toList)
      | .If =>
        match st.next_token with
        | .error e => .error e
        | .ok st1 =>
          match comparison f (st1.emit "if(".toList) with
          | .error e => .error e
          | .ok st2 =>
            match st2.match_token .Then with
            | .error e => .error e
            | .ok st3 =>
              match nl f st3 with
              | .error e => .error e
              | .ok st4 =>
                match stmt_go f .EndIf (st4.emit_line ")\x7b".toList) with
                | .error e => .error e
                | .ok st5 =>
                  match st5.match_token .EndIf with
                  | .error e => .error e
                  | .ok st6 => .ok (st6.emit_line "\x7d".toList)
      | .While =>
        match st.next_token with
        | .error e => .error e
        | .ok st1 =>
          match comparison f (st1.emit "while(".toList) with
          | .error e => .error e
          | .ok st2 =>
            match st2.match_token .Repeat with
            | .error e => .error e
            | .ok st3 =>
              match nl f st3 with
              | .error e => .error e
              | .ok st4 =>
                match stmt_go f .EndWhile (st4.emit_line ")\x7b".toList) with
                | .error e => .error e
                | .ok st5 =>
                  match st5.match_token .EndWhile with
                  | .error e => .error e
                  | .ok st6 => .ok (st6.emit_line "\x7d".toList)
      | .Label =>
        match st.next_token with
        | .error e => .error e
        | .ok st1 =>
          if st1.cur_token.text ∈ st1.labels_declared then
            .error (.labelExists st1.cur_token.text)
          else
            let st2 := { st1 with labels_declared := hs_insert st1.labels_declared st1.cur_token.text }
            (st2.emit_line (st2.cur_token.text ++ ":".toList)).match_token .Ident
      | .GoTo =>
        match st.next_token with
        | .error e => .error e
        | .ok st1 =>
          let st2 := { st1 with labels_gotoed := hs_insert st1.labels_gotoed st1.cur_token.text }
          (st2.emit_line ("goto ".toList ++ st2.cur_token.text ++ ";".toList)).match_token .Ident
      | .Let =>
        match st.next_token with
        | .error e => .error e
        | .ok st1 =>
          let st2 :=
            if st1.cur_token.text ∈ st1.symbols then st1
            else
              ({ st1 with symbols := hs_insert st1.symbols st1.cur_token.text }).header_line
                ("float ".toList ++ st1.cur_token.text ++ ";".toList)
          match (st2.emit (st2.cur_token.text ++ " = ".toList)).match_token .Ident with
          | .error e => .error e
          | .ok st3 =>
            match st3.match_token .Eq with
            | .error e => .error e
            | .ok st4 =>
              match expression f st4 with
              | .error e => .error e
              | .ok st5 => .ok (st5.emit_line ";".toList)
      | .Input =>
        match st.next_token with
        | .error e => .error e
        | .ok st1 =>
          let st2 :=
            if st1.cur_token.text ∈ st1.symbols then st1
            else
              ({ st1 with symbols := hs_insert st1.symbols st1.cur_token.text }).header_line
                ("float ".toList ++ st1.cur_token.text ++ ";".toList)
          let st3 := st2.emit_line ("if(0 == scanf(\"%f\", &".toList ++ st2.cur_token.text ++ ")) \x7b".toList)
          let st4 := st3.emit_line (st3.cur_token.text ++ " = 0;".toList)
          let st5 := (st4.emit "scanf(\"%".toList).emit_line "*s\");".toList
          (st5.emit_line "\x7d".toList).match_token .Ident
      | _ => .error (.invalidStatement st.cur_token.text)
    match body with
    | .error e => .error e
    | .ok st' => nl f st'

/-- Statement loops of `src/parser.rs`: `while !self.check_token(stop)`
around `self.statement()`, used with `Eof` in `program` and with
`EndIf`/`EndWhile` inside `statement`. -/
def stmt_go : Nat → TokenType → PState → Except CompErr PState
  | 0, _, _ => .error .outOfFuel
  | f + 1, stop, st =>
    if st.check_token stop then .ok st
    else
      match statement f st with
      | .error e => .error e
      | .ok st' => stmt_go f stop st'

end

/-- Deferred label-existence check at the end of `Parser::program`: the
filtered iteration aborts (panics) at the first referenced label that was
never declared. -/
def label_check (gotoed declared : List Str) : Except CompErr Unit :=
  match gotoed.filter (fun x => decide (x ∉ declared)) with
  | [] => .ok ()
  | l :: _ => .error (.gotoUndeclaredLabel l)

/-- `Parser::program`. -/
def program (f : Nat) (st : PState) : Except CompErr PState :=
  let st1 := (st.header_line "#include <stdio.h>".toList).header_line "int main(void)\x7b".toList
  match skip_newlines f st1 with
  | .error e => .error e
  | .ok st2 =>
    match stmt_go f .Eof st2 with
    | .error e => .error e
    | .ok st3 =>
      let st4 := (st3.emit_line "return 0;".toList).emit_line "\x7d".toList
      match label_check st4.labels_gotoed st4.labels_declared with
      | .error e => .error e
      | .ok _ => .ok st4

/-- Whole pipeline as in `main.rs`, up to the final state: build the lexer
(which appends one newline), build the parser (`Parser::new` pulls two
tokens), run `program`. -/
def compile_st (f : Nat) (src : Str) : Except CompErr PState :=
  let st0 : PState :=
    { lexer := Lexer.new src
      cur_token := ⟨[], .Unknown⟩
      peek_token := ⟨[], .Unknown⟩
      symbols := []
      labels_declared := []
      labels_gotoed := []
      header := []
      code := [] }
  match st0.next_token with
  | .error e => .error e
  | .ok st1 =>
    match st1.next_token with
    | .error e => .error e
    | .ok st2 => program f st2

/-- Output written by `Emitter::write_file`: the preamble buffer followed
by the body buffer (`format!("{}{}", self.header, self.code)`). -/
def compile (f : Nat) (src : Str) : Except CompErr Str :=
  match compile_st f src with
  | .error e => .error e
  | .ok st => .ok (st.header ++ st.code)

/-- `main` only calls `Emitter::write_file` after `Parser::program` has
returned; on any abort no output text is produced. -/
def compile_output (f : Nat) (src : Str) : Option Str :=
  match compile f src with
  | .ok out => some out
  | .error _ => none

/-! Basic facts about the lexer primitives. -/

lemma getD_out (s : Str) (n : Nat) (h : s.length ≤ n) : s.getD n '\x00' = '\x00' :=
  List.getD_eq_default _ _ h

lemma cur_char_out (l : Lexer) (h : l.source.length ≤ l.cur_pos) : l.cur_char = '\x00' :=
  getD_out _ _ h

lemma pos_lt_of_cur_ne (l : Lexer) (h : l.cur_char ≠ '\x00') :
    l.cur_pos < l.source.length := by
  by_contra hc
  push_neg at hc
  exact h (cur_char_out l hc)

lemma drop_cur (l : Lexer) (h : l.cur_pos < l.source.length) :
    l.source.drop l.cur_pos = l.cur_char :: l.source.drop (l.cur_pos + 1) := by
  have h1 := List.drop_eq_getElem_cons (l := l.source) h
  rwa [show l.source[l.cur_pos] = l.cur_char from (List.getD_eq_getElem l.source '\x00' h).symm] at h1

lemma drop_peek (l : Lexer) (h : l.cur_pos + 1 < l.source.length) :
    l.source.drop (l.cur_pos + 1) = l.peek :: l.source.drop (l.cur_pos + 2) := by
  have h1 := List.drop_eq_getElem_cons (l := l.source) h
  rwa [show l.source[l.cur_pos + 1] = l.peek from (List.getD_eq_getElem l.source '\x00' h).symm] at h1

lemma peek_lt_of_ne (l : Lexer) (h : l.peek ≠ '\x00') :
    l.cur_pos + 1 < l.source.length := by
  by_contra hc
  push_neg at hc
  exact h (getD_out _ _ hc)

lemma take_takeWhile_len (p : Char → Bool) (l : Str) :
    l.take ((l.takeWhile p).length) = l.takeWhile p := by
  induction l with
  | nil => rfl
  | cons c r ih => by_cases h : p c <;> simp [List.takeWhile_cons, h, ih]

lemma mem_takeWhile_sat {p : Char → Bool} {l : Str} {x : Char} (hx : x ∈ l.takeWhile p) :
    p x = true := by
  induction l with
  | nil => simp at hx
  | cons c r ih =>
    rw [List.takeWhile_cons] at hx
    by_cases h : p c
    · simp [h] at hx
      rcases hx with rfl | hx
      · exact h
      · exact ih hx
    · simp [h] at hx

/-- Characterization of the whitespace-skipping loop: it moves over exactly
the maximal run of space, tab and carriage-return characters. -/
lemma skip_whitespace_go_spec : ∀ (f : Nat) (l : Lexer),
    l.source.length - l.cur_pos ≤ f →
    Lexer.skip_whitespace_go f l =
      ⟨l.source, l.cur_pos + ((l.source.drop l.cur_pos).takeWhile Lexer.is_ws).length⟩ := by
  intro f
  induction f with
  | zero =>
    intro l hf
    rw [List.drop_eq_nil_of_le (by omega)]
    cases l
    simp [Lexer.skip_whitespace_go]
  | succ f ih =>
    intro l hf
    rw [Lexer.skip_whitespace_go]
    by_cases hw : Lexer.is_ws l.cur_char
    · have hcur : l.cur_char ≠ '\x00' := by
        intro h0
        rw [h0] at hw
        simp [Lexer.is_ws] at hw
      have hlt := pos_lt_of_cur_ne l hcur
      rw [if_pos hw, ih l.next_char (by simp [Lexer.next_char]; omega)]
      rw [drop_cur l hlt, List.takeWhile_cons, if_pos hw]
      simp [Lexer.next_char]
      omega
    · rw [if_neg hw]
      have h0 : (l.source.drop l.cur_pos).takeWhile Lexer.is_ws = [] := by
        by_cases hlt : l.cur_pos < l.source.length
        · rw [drop_cur l hlt, List.takeWhile_cons, if_neg hw]
        · rw [List.drop_eq_nil_of_le (by omega)]
          rfl
      rw [h0]
      cases l
      simp

lemma skip_whitespace_spec (l : Lexer) :
    l.skip_whitespace =
      ⟨l.source, l.cur_pos + ((l.source.drop l.cur_pos).takeWhile Lexer.is_ws).length⟩ :=
  skip_whitespace_go_spec _ l (by omega)

/-- On a non-whitespace current character `skip_whitespace` is the identity. -/
lemma skip_whitespace_id (l : Lexer) (h : Lexer.is_ws l.cur_char = false) :
    l.skip_whitespace = l := by
  rw [skip_whitespace_spec]
  have h0 : (l.source.drop l.cur_pos).takeWhile Lexer.is_ws = [] := by
    by_cases hlt : l.cur_pos < l.source.length
    · rw [drop_cur l hlt, List.takeWhile_cons, h]
      simp
    · rw [List.drop_eq_nil_of_le (by omega)]
      rfl
  rw [h0]
  cases l
  simp

/-- Characterization of the digit-run loop (which tests the lookahead):
it advances over exactly the maximal digit run that follows `cur_pos`. -/
lemma skip_digits_go_spec : ∀ (f : Nat) (l : Lexer),
    l.source.length - l.cur_pos ≤ f →
    Lexer.skip_digits_go f l =
      ⟨l.source, l.cur_pos + ((l.source.drop (l.cur_pos + 1)).takeWhile Char.isDigit).length⟩ := by
  intro f
  induction f with
  | zero =>
    intro l hf
    rw [List.drop_eq_nil_of_le (by omega)]
    cases l
    simp [Lexer.skip_digits_go]
  | succ f ih =>
    intro l hf
    rw [Lexer.skip_digits_go]
    by_cases hd : (l.peek).isDigit
    · have hpk : l.peek ≠ '\x00' := by
        intro h0
        rw [h0] at hd
        simp [Char.isDigit] at hd
      have hlt := peek_lt_of_ne l hpk
      rw [if_pos hd, ih l.next_char (by simp [Lexer.next_char]; omega)]
      rw [drop_peek l hlt, List.takeWhile_cons, if_pos hd]
      simp [Lexer.next_char, Nat.add_assoc]
      omega
    · rw [if_neg hd]
      have h0 : (l.source.drop (l.cur_pos + 1)).takeWhile Char.isDigit = [] := by
        by_cases hlt : l.cur_pos + 1 < l.source.length
        · rw [drop_peek l hlt, List.takeWhile_cons, if_neg hd]
        · rw [List.drop_eq_nil_of_le (by omega)]
          rfl
      rw [h0]
      cases l
      simp

lemma skip_digits_spec (l : Lexer) :
    l.skip_digits =
      ⟨l.source, l.cur_pos + ((l.source.drop (l.cur_pos + 1)).takeWhile Char.isDigit).length⟩ :=
  skip_digits_go_spec _ l (by omega)

/-- Characterization of the alphanumeric-run loop. -/
lemma skip_alnum_go_spec : ∀ (f : Nat) (l : Lexer),
    l.source.length - l.cur_pos ≤ f →
    Lexer.skip_alnum_go f l =
      ⟨l.source, l.cur_pos + ((l.source.drop (l.cur_pos + 1)).takeWhile rust_is_alphanumeric).length⟩ := by
  intro f
  induction f with
  | zero =>
    intro l hf
    rw [List.drop_eq_nil_of_le (by omega)]
    cases l
    simp [Lexer.skip_alnum_go]
  | succ f ih =>
    intro l hf
    rw [Lexer.skip_alnum_go]
    by_cases hd : rust_is_alphanumeric l.peek
    · have hpk : l.peek ≠ '\x00' := by
        intro h0
        rw [h0] at hd
        simp [rust_is_alphanumeric, Char.isAlpha, Char.isDigit, Char.isUpper, Char.isLower] at hd
      have hlt := peek_lt_of_ne l hpk
      rw [if_pos hd, ih l.next_char (by simp [Lexer.next_char]; omega)]
      rw [drop_peek l hlt, List.takeWhile_cons, if_pos hd]
      simp [Lexer.next_char, Nat.add_assoc]
      omega
    · rw [if_neg hd]
      have h0 : (l.source.drop (l.cur_pos + 1)).takeWhile rust_is_alphanumeric = [] := by
        by_cases hlt : l.cur_pos + 1 < l.source.length
        · rw [drop_peek l hlt, List.takeWhile_cons, if_neg hd]
        · rw [List.drop_eq_nil_of_le (by omega)]
          rfl
      rw [h0]
      cases l
      simp

lemma skip_alnum_spec (l : Lexer) :
    l.skip_alnum =
      ⟨l.source, l.cur_pos + ((l.source.drop (l.cur_pos + 1)).takeWhile rust_is_alphanumeric).length⟩ :=
  skip_alnum_go_spec _ l (by omega)

/-- Inversion for the comment-skipping loop: on success it has advanced to
the first newline at or after the starting position. -/
lemma skip_comment_go_ok : ∀ (f : Nat) (l l1 : Lexer),
    Lexer.skip_comment_go f l = .ok l1 →
    l1.source = l.source ∧ l1.cur_char = '\n' ∧
      l1.source.drop l1.cur_pos = (l.source.drop l.cur_pos).dropWhile (fun c => !(c = '\n')) := by
  intro f
  induction f with
  | zero => intro l l1 h; simp [Lexer.skip_comment_go] at h
  | succ f ih =>
    intro l l1 h
    rw [Lexer.skip_comment_go] at h
    by_cases hn : l.cur_char = '\n'
    · rw [if_pos hn] at h
      cases h
      have hlt := pos_lt_of_cur_ne l (by rw [hn]; decide)
      refine ⟨rfl, hn, ?_⟩
      rw [drop_cur l hlt, List.dropWhile_cons, hn]
      simp
    · rw [if_neg hn] at h
      by_cases hlt : l.cur_pos < l.source.length
      · rw [if_pos hlt] at h
        obtain ⟨h1, h2, h3⟩ := ih l.next_char l1 h
        refine ⟨by simpa [Lexer.next_char] using h1, h2, ?_⟩
        rw [drop_cur l hlt, List.dropWhile_cons]
        simp only [hn, Bool.not_eq_true', decide_eq_false_iff_not, if_pos]
        simpa [Lexer.next_char] using h3
      · rw [if_neg hlt] at h
        simp at h

/-- Inversion for `skip_comment` itself. -/
lemma skip_comment_ok (l l1 : Lexer) (h : l.skip_comment = .ok l1) :
    l1.source = l.source ∧
      ((l.cur_char = '#' ∧ l1.cur_char = '\n' ∧
          l1.source.drop l1.cur_pos = (l.source.drop l.cur_pos).dropWhile (fun c => !(c = '\n'))) ∨
        (l.cur_char ≠ '#' ∧ l1 = l)) := by
  rw [Lexer.skip_comment] at h
  by_cases hc : l.cur_char = '#'
  · rw [if_pos hc] at h
    obtain ⟨h1, h2, h3⟩ := skip_comment_go_ok _ l l1 h
    exact ⟨h1, .inl ⟨hc, h2, h3⟩⟩
  · rw [if_neg hc] at h
    cases h
    exact ⟨rfl, .inr ⟨hc, rfl⟩⟩

/-- Behaviour of `Lexer::get_token` on a `'!'` current character, for any
lookahead: with `'='` it returns a two-character token of kind `LtEq`
(see the bug note on `Lexer.get_token`), otherwise it aborts. -/
lemma get_token_bang (l : Lexer) (h : l.cur_char = '!') :
    l.get_token =
      if l.peek = '=' then
        .ok (⟨['!', l.next_char.cur_char], .LtEq⟩, l.next_char.next_char)
      else .error (.expectedNotEq l.peek) := by
  have hws := skip_whitespace_id l (by rw [h]; rfl)
  have hcm : l.skip_comment = .ok l := by
    rw [Lexer.skip_comment, if_neg (by rw [h]; decide)]
  simp only [Lexer.get_token, hws, hcm, h]
  simp [show ('!' : Char).isDigit = false from rfl, show ('!' : Char).isAlpha = false from rfl]

/-- C1: the spec says `!=` lexes to a single token of the not-equal kind
`NotEq` and that any other lookahead after `!` is an unexpected-character
abort.  The abort half is true, but the Rust code tags the `!=` token
`TokenType::LtEq` (a slip in the `'!'` arm of `Lexer::get_token`; the enum
has `NotEq`, which the lexer never produces although
`Parser::is_comparison_operator` tests for it).  This theorem evaluates the
code at the failing input. -/
theorem claim_C1_noteq_kind :
    Lexer.get_token (Lexer.new "!=".toList) =
      .ok (⟨"!=".toList, .LtEq⟩, ⟨"!=".toList ++ ['\n'], 2⟩) ∧
    TokenType.LtEq ≠ TokenType.NotEq ∧
    (∀ l : Lexer, l.cur_char = '!' → l.peek ≠ '=' →
      l.get_token = .error (.expectedNotEq l.peek)) := by
  refine ⟨by decide, by decide, ?_⟩
  intro l h hne
  rw [get_token_bang l h, if_neg hne]

/-- Witness for the hypothesised part of the C1 theorem at the concrete
lexer state over `"!x"`. -/
theorem claim_C1_noteq_kind_witness :
    Lexer.get_token (Lexer.new "!x".toList) = .error (.expectedNotEq 'x') :=
  claim_C1_noteq_kind.2.2 (Lexer.new "!x".toList) rfl (by decide)

/-- C3: `primary` on an identifier that is not in the symbol table aborts
with the undeclared-variable error ("Referencing variable before
assignment"), and an aborted compilation produces no output text (in
`main.rs` the `Emitter::write_file` call is only reached after
`Parser::program` returns). -/
theorem claim_C3_undeclared_variable :
    (∀ st : PState, st.cur_token.kind = .Ident → st.cur_token.text ∉ st.symbols →
      primary st = .error (.undeclaredVariable st.cur_token.text)) ∧
    (∀ (f : Nat) (src : Str) (e : CompErr), compile f src = .error e →
      compile_output f src = none) ∧
    compile 99 "PRINT a\n".toList = .error (.undeclaredVariable "a".toList) := by
  refine ⟨?_, ?_, by decide⟩
  · intro st h1 h2
    simp [primary, h1, h2]
  · intro f src e h
    unfold compile_output
    rw [h]

/-- Concrete parser state whose current token is the identifier `a` with an
empty symbol table. -/
def c3_state : PState :=
  { lexer := Lexer.new []
    cur_token := ⟨"a".toList, .Ident⟩
    peek_token := ⟨[], .Unknown⟩
    symbols := []
    labels_declared := []
    labels_gotoed := []
    header := []
    code := [] }

/-- Witness for the hypothesised parts of the C3 theorem. -/
theorem claim_C3_undeclared_variable_witness :
    primary c3_state = .error (.undeclaredVariable "a".toList) ∧
    compile_output 99 "PRINT a\n".toList = none :=
  ⟨claim_C3_undeclared_variable.1 c3_state rfl (by simp [c3_state]),
   claim_C3_undeclared_variable.2.1 99 _ _ claim_C3_undeclared_variable.2.2⟩

/-- The eleven keyword spellings of `Token::check_if_keyword`, in table
order. -/
def keyword_spellings : List Str :=
  ["LABEL".toList, "GOTO".toList, "PRINT".toList, "INPUT".toList, "LET".toList,
   "IF".toList, "THEN".toList, "ENDIF".toList, "WHILE".toList, "REPEAT".toList,
   "ENDWHILE".toList]

lemma check_if_keyword_unknown_iff (text : Str) :
    Token.check_if_keyword text = .Unknown ↔ text ∉ keyword_spellings := by
  unfold Token.check_if_keyword keyword_spellings
  split_ifs with h1 h2 h3 h4 h5 h6 h7 h8 h9 h10 h11 <;> simp_all

/-- C7: classification of an identifier-shaped lexeme is total and
deterministic (it is a function); it yields a reserved-word kind exactly
when the lexeme is a character-for-character match of one of the eleven
keyword spellings, and yields `Ident` otherwise — so no case-variant or
proper prefix of a keyword is ever classified as a keyword. -/
theorem claim_C7_keyword_classification :
    (∀ text : Str, Token.check_if_keyword text ≠ .Unknown ↔ text ∈ keyword_spellings) ∧
    (∀ text : Str, text ∉ keyword_spellings → classify_ident text = .Ident) ∧
    (∀ text : Str, text ∈ keyword_spellings →
      classify_ident text = Token.check_if_keyword text ∧
      Token.check_if_keyword text ≠ .Unknown) := by
  refine ⟨?_, ?_, ?_⟩
  · intro text
    rw [not_iff_comm, check_if_keyword_unknown_iff]
  · intro text h
    unfold classify_ident
    rw [if_pos ((check_if_keyword_unknown_iff text).mpr h)]
  · intro text h
    have hne : Token.check_if_keyword text ≠ .Unknown := by
      rw [ne_eq, check_if_keyword_unknown_iff]
      simpa using h
    unfold classify_ident
    rw [if_neg hne]
    exact ⟨rfl, hne⟩

/-- Witness for the hypothesised parts of the C7 theorem: the lower-case
variant `label` and the proper prefix `LABE` are identifiers, the exact
spelling `LABEL` is the keyword. -/
theorem claim_C7_keyword_classification_witness :
    classify_ident "label".toList = .Ident ∧
    classify_ident "LABE".toList = .Ident ∧
    (classify_ident "LABEL".toList = Token.check_if_keyword "LABEL".toList ∧
      Token.check_if_keyword "LABEL".toList ≠ .Unknown) :=
  ⟨claim_C7_keyword_classification.2.1 "label".toList (by decide),
   claim_C7_keyword_classification.2.1 "LABE".toList (by decide),
   claim_C7_keyword_classification.2.2 "LABEL".toList (by decide)⟩

/-- C6: `Parser::comparison` demands at least one comparison operator after
the first expression: if none follows, it aborts with the
missing-comparison error at the offending token; and whenever `comparison`
succeeds, a comparison operator did follow its first expression (so at
least one operator/expression pair was consumed).  Two concrete runs
exercise both sides through the whole pipeline. -/
theorem claim_C6_comparison_required :
    (∀ (f : Nat) (st st' : PState), expression f st = .ok st' →
      st'.is_comparison_operator = false →
      comparison f st = .error (.expectedComparisonAt st'.cur_token.text)) ∧
    (∀ (f : Nat) (st st' stR : PState), expression f st = .ok st' →
      comparison f st = .ok stR → st'.is_comparison_operator = true) ∧
    (compile 99 "IF 1 > 0 THEN\nENDIF\n".toList).isOk = true ∧
    compile 99 "IF 1 THEN\nENDIF\n".toList =
      .error (.expectedComparisonAt "THEN".toList) := by
  refine ⟨?_, ?_, by decide, by decide⟩
  · intro f st st' hexp hop
    simp only [comparison, hexp, hop]
    simp
  · intro f st st' stR hexp hcmp
    by_cases hop : st'.is_comparison_operator
    · exact hop
    · exfalso
      rw [Bool.not_eq_true] at hop
      unfold comparison at hcmp
      rw [hexp] at hcmp
      dsimp only at hcmp
      rw [hop] at hcmp
      simp at hcmp

/-- Parser state for the C6 witness: current token `1`, lookahead `THEN`,
as reached inside `IF 1 THEN`. -/
def c6_state : PState :=
  { lexer := ⟨"\n".toList, 0⟩
    cur_token := ⟨"1".toList, .Number⟩
    peek_token := ⟨"THEN".toList, .Then⟩
    symbols := []
    labels_declared := []
    labels_gotoed := []
    header := []
    code := [] }

/-- Parser state for the success side of the C6 witness: current token `1`,
lookahead `>`, the lexer about to deliver `0`. -/
def c6_state_ok : PState :=
  { lexer := ⟨"0\n".toList, 0⟩
    cur_token := ⟨"1".toList, .Number⟩
    peek_token := ⟨">".toList, .Gt⟩
    symbols := []
    labels_declared := []
    labels_gotoed := []
    header := []
    code := [] }

/-- State produced by running `expression` at `c6_state`. -/
def c6_state_after : PState :=
  match expression 9 c6_state with
  | .ok st => st
  | .error _ => c6_state

/-- State produced by running `expression` at `c6_state_ok`. -/
def c6_state_ok_after : PState :=
  match expression 9 c6_state_ok with
  | .ok st => st
  | .error _ => c6_state_ok

/-- State produced by running `comparison` at `c6_state_ok`. -/
def c6_state_ok_cmp : PState :=
  match comparison 9 c6_state_ok with
  | .ok st => st
  | .error _ => c6_state_ok

/-- Witness for the hypothesised parts of the C6 theorem. -/
theorem claim_C6_comparison_required_witness :
    comparison 9 c6_state = .error (.expectedComparisonAt c6_state_after.cur_token.text) ∧
    c6_state_ok_after.is_comparison_operator = true :=
  ⟨claim_C6_comparison_required.1 9 c6_state c6_state_after (by decide) (by decide),
   claim_C6_comparison_required.2.1 9 c6_state_ok c6_state_ok_after c6_state_ok_cmp
     (by decide) (by decide)⟩

/-- Counterexample to C2 as stated.  In `GOTO A` / `GOTO B` with no labels
declared, both `A` and `B` are referenced-but-undeclared, yet the run
reports only one of them: the filtered `for_each` in `Parser::program`
aborts (panics) at the first offending label it visits, so the outcome
names `A` alone — `B` is offending (as the second run shows) but is never
reported.  This refutes "every offending name is reported". -/
theorem claim_C2_counterexample :
    compile 99 "GOTO A\nGOTO B\n".toList = .error (.gotoUndeclaredLabel "A".toList) ∧
    compile 99 "GOTO B\n".toList = .error (.gotoUndeclaredLabel "B".toList) ∧
    CompErr.gotoUndeclaredLabel "A".toList ≠ CompErr.gotoUndeclaredLabel "B".toList := by
  refine ⟨by decide, by decide, by decide⟩

/-- C2 as amended: the label-existence check runs only after the entire
program has been parsed (a forward `GOTO` succeeds), it fails with the
undeclared-label abort exactly when some referenced name is absent from the
declared set, and exactly one offending name — the first one in the set's
iteration order — is reported, after which compilation aborts. -/
theorem claim_C2_deferred_label_check :
    (compile 99 "GOTO L\nLABEL L\n".toList).isOk = true ∧
    (∀ gotoed declared : List Str, (∀ x ∈ gotoed, x ∈ declared) →
      label_check gotoed declared = .ok ()) ∧
    (∀ gotoed declared : List Str, label_check gotoed declared = .ok () →
      ∀ x ∈ gotoed, x ∈ declared) ∧
    (∀ (gotoed declared : List Str) (x : Str) (xs : List Str),
      gotoed.filter (fun a => decide (a ∉ declared)) = x :: xs →
      x ∈ gotoed ∧ x ∉ declared ∧
        label_check gotoed declared = .error (.gotoUndeclaredLabel x)) := by
  refine ⟨by decide, ?_, ?_, ?_⟩
  · intro g d h
    unfold label_check
    rw [List.filter_eq_nil_iff.mpr (fun a ha => by simpa using h a ha)]
  · intro g d h x hx
    by_contra hnd
    have hmem : x ∈ g.filter (fun a => decide (a ∉ d)) :=
      List.mem_filter.mpr ⟨hx, by simpa using hnd⟩
    cases hf : g.filter (fun a => decide (a ∉ d)) with
    | nil => rw [hf] at hmem; simp at hmem
    | cons y ys =>
      unfold label_check at h
      rw [hf] at h
      simp at h
  · intro g d x xs hf
    have hmem : x ∈ g.filter (fun a => decide (a ∉ d)) := by
      rw [hf]
      exact List.mem_cons_self x xs
    obtain ⟨hxg, hxd⟩ := List.mem_filter.mp hmem
    refine ⟨hxg, by simpa using hxd, ?_⟩
    unfold label_check
    rw [hf]

/-- Witness for the hypothesised parts of the amended C2 theorem, at the
label sets of the two-`GOTO` counterexample program. -/
theorem claim_C2_deferred_label_check_witness :
    label_check ["L".toList] ["L".toList] = .ok () ∧
    ("A".toList ∈ (["A".toList, "B".toList] : List Str) ∧ "A".toList ∉ ([] : List Str) ∧
      label_check ["A".toList, "B".toList] [] = .error (.gotoUndeclaredLabel "A".toList)) ∧
    "L".toList ∈ (["L".toList] : List Str) :=
  ⟨claim_C2_deferred_label_check.2.1 ["L".toList] ["L".toList] (by decide),
   claim_C2_deferred_label_check.2.2.2 ["A".toList, "B".toList] [] "A".toList ["B".toList]
     (by decide),
   claim_C2_deferred_label_check.2.2.1 ["L".toList] ["L".toList] (by decide)
     "L".toList (by decide)⟩

/-- An unterminated string literal always runs into a disallowed character
(at the latest a newline) before the end of the source: the scanning loop
then aborts with the illegal-character error. -/
lemma scan_string_go_illegal : ∀ (f : Nat) (l : Lexer),
    '\n' ∈ l.source.drop l.cur_pos →
    l.source.length + 1 - l.cur_pos ≤ f →
    '"' ∉ (l.source.drop l.cur_pos).takeWhile (fun c => !Lexer.bad_string_char c) →
    Lexer.scan_string_go f l = .error .illegalStringChar := by
  intro f
  induction f with
  | zero =>
    intro l hmem hf htw
    exfalso
    have hlt : l.cur_pos < l.source.length := by
      by_contra hc
      push_neg at hc
      rw [List.drop_eq_nil_of_le hc] at hmem
      simp at hmem
    omega
  | succ f ih =>
    intro l hmem hf htw
    have hlt : l.cur_pos < l.source.length := by
      by_contra hc
      push_neg at hc
      rw [List.drop_eq_nil_of_le hc] at hmem
      simp at hmem
    rw [Lexer.scan_string_go]
    by_cases hq : l.cur_char = '"'
    · exfalso
      apply htw
      rw [drop_cur l hlt, List.takeWhile_cons, hq]
      simp [Lexer.bad_string_char]
    · rw [if_neg hq]
      by_cases hb : Lexer.bad_string_char l.cur_char
      · rw [if_pos hb]
      · rw [if_neg hb, if_pos hlt]
        have hcur_ne : l.cur_char ≠ '\n' := by
          intro h0
          rw [h0] at hb
          simp [Lexer.bad_string_char] at hb
        apply ih
        · rw [drop_cur l hlt, List.mem_cons] at hmem
          rcases hmem with h | h
          · exact absurd h.symm hcur_ne
          · simpa [Lexer.next_char] using h
        · simp [Lexer.next_char]
          omega
        · rw [drop_cur l hlt, List.takeWhile_cons, if_pos (by simp [hb])] at htw
          intro h
          apply htw
          simp only [List.mem_cons]
          right
          simpa [Lexer.next_char] using h
      
/-- As long as a newline remains ahead, the string-scanning loop terminates
on its own (closing quote or abort) and never runs past the end of the
source. -/
lemma scan_string_go_no_overrun : ∀ (f : Nat) (l : Lexer),
    '\n' ∈ l.source.drop l.cur_pos →
    l.source.length + 1 - l.cur_pos ≤ f →
    Lexer.scan_string_go f l ≠ .error .lexerOverrun ∧
    Lexer.scan_string_go f l ≠ .error .outOfFuel := by
  intro f
  induction f with
  | zero =>
    intro l hmem hf
    exfalso
    have hlt : l.cur_pos < l.source.length := by
      by_contra hc
      push_neg at hc
      rw [List.drop_eq_nil_of_le hc] at hmem
      simp at hmem
    omega
  | succ f ih =>
    intro l hmem hf
    have hlt : l.cur_pos < l.source.length := by
      by_contra hc
      push_neg at hc
      rw [List.drop_eq_nil_of_le hc] at hmem
      simp at hmem
    rw [Lexer.scan_string_go]
    by_cases hq : l.cur_char = '"'
    · rw [if_pos hq]
      exact ⟨by simp, by simp⟩
    · rw [if_neg hq]
      by_cases hb : Lexer.bad_string_char l.cur_char
      · rw [if_pos hb]
        exact ⟨by simp, by simp⟩
      · rw [if_neg hb, if_pos hlt]
        have hcur_ne : l.cur_char ≠ '\n' := by
          intro h0
          rw [h0] at hb
          simp [Lexer.bad_string_char] at hb
        apply ih
        · rw [drop_cur l hlt, List.mem_cons] at hmem
          rcases hmem with h | h
          · exact absurd h.symm hcur_ne
          · simpa [Lexer.next_char] using h
        · simp [Lexer.next_char]
          omega

/-- The character the constructor appended sits one past the original
source. -/
lemma getD_appended_newline (s : Str) : (s ++ ['\n']).getD s.length '\x00' = '\n' := by
  induction s with
  | nil => rfl
  | cons c r ih => simpa using ih

lemma newline_mem_drop (s : Str) (n : Nat) (h : n ≤ s.length) :
    '\n' ∈ (s ++ ['\n']).drop n := by
  rw [List.drop_append_of_le_length h]
  simp

/-- C10: on any source (the constructor `Lexer::new` unconditionally
appends one newline), a string literal whose opening quote is never closed
before a disallowed character — in particular before the end of its line —
makes `get_token` abort with the illegal-character-in-string error, and the
scanning loop never reads past the end of the source: a newline is always
ahead, newline is disallowed inside a literal, and the loop stops there at
the latest. -/
theorem claim_C10_unterminated_string :
    (∀ src : Str, (Lexer.new src).source = src ++ ['\n']) ∧
    (∀ l : Lexer, '\n' ∈ l.source.drop l.cur_pos →
      l.scan_string ≠ .error .lexerOverrun ∧ l.scan_string ≠ .error .outOfFuel) ∧
    (∀ (src : Str) (pos : Nat),
      (Lexer.mk (src ++ ['\n']) pos).cur_char = '"' →
      '"' ∉ ((src ++ ['\n']).drop (pos + 1)).takeWhile (fun c => !Lexer.bad_string_char c) →
      (Lexer.mk (src ++ ['\n']) pos).get_token = .error .illegalStringChar) := by
  refine ⟨fun _ => rfl, ?_, ?_⟩
  · intro l hmem
    exact scan_string_go_no_overrun _ l hmem (by omega)
  · intro src pos hq htw
    set l : Lexer := Lexer.mk (src ++ ['\n']) pos with hl
    have hlt : l.cur_pos < l.source.length := pos_lt_of_cur_ne l (by rw [hq]; decide)
    have hpos : pos ≠ src.length := by
      intro h0
      rw [hl] at hq
      simp only [Lexer.cur_char, h0] at hq
      rw [getD_appended_newline src] at hq
      exact absurd hq (by decide)
    have hpos' : pos + 1 ≤ src.length := by
      have h1 : pos < src.length + 1 := by simpa [hl] using hlt
      omega
    have hmem : '\n' ∈ l.source.drop (l.cur_pos + 1) := newline_mem_drop src (pos + 1) hpos'
    have hscan : Lexer.scan_string l.next_char = .error .illegalStringChar := by
      apply scan_string_go_illegal
      · simpa [Lexer.next_char] using hmem
      · simp [Lexer.next_char, Lexer.scan_string]
        omega
      · simpa [Lexer.next_char] using htw
    have hws := skip_whitespace_id l (by rw [hq]; rfl)
    have hcm : l.skip_comment = .ok l := by
      rw [Lexer.skip_comment, if_neg (by rw [hq]; decide)]
    simp only [Lexer.get_token, hws, hcm, hq]
    simp [hscan]

/-- Witness for the hypothesised parts of the C10 theorem, at the
unterminated literal `"ab` (no closing quote before end of line). -/
theorem claim_C10_unterminated_string_witness :
    ((⟨"ab\n".toList, 0⟩ : Lexer).scan_string ≠ .error .lexerOverrun ∧
      (⟨"ab\n".toList, 0⟩ : Lexer).scan_string ≠ .error .outOfFuel) ∧
    (Lexer.mk ("\"ab".toList ++ ['\n']) 0).get_token = .error .illegalStringChar :=
  ⟨claim_C10_unterminated_string.2.1 ⟨"ab\n".toList, 0⟩ (by decide),
   claim_C10_unterminated_string.2.2 "\"ab".toList 0 (by decide) (by decide)⟩

/-- A whitespace character (space, tab, carriage return) is not a digit. -/
lemma ws_not_digit (c : Char) (h : Lexer.is_ws c = true) : c.isDigit = false := by
  rw [Lexer.is_ws] at h
  simp only [Bool.or_eq_true, decide_eq_true_eq] at h
  obtain (h | h) | h := h <;> subst h <;> decide

/-- Full behaviour of `Lexer::get_token` on a digit current character:
the token text is the maximal digit run, optionally extended by one decimal
point and a further maximal digit run; a decimal point not followed by a
digit aborts with the illegal-number error. -/
lemma get_token_digit_case (l : Lexer) (hd : l.cur_char.isDigit = true)
    (r1 : Str) (hr1 : (l.source.drop l.cur_pos).takeWhile Char.isDigit = r1)
    (p1 : Nat) (hp1 : p1 = l.cur_pos + r1.length) :
    (l.source.getD p1 '\x00' ≠ '.' →
      l.get_token = .ok (⟨r1, .Number⟩, ⟨l.source, p1⟩)) ∧
    (l.source.getD p1 '\x00' = '.' → (l.source.getD (p1 + 1) '\x00').isDigit = false →
      l.get_token = .error .illegalNumber) ∧
    (∀ r2 : Str, l.source.getD p1 '\x00' = '.' →
      (l.source.getD (p1 + 1) '\x00').isDigit = true →
      (l.source.drop (p1 + 1)).takeWhile Char.isDigit = r2 →
      l.get_token = .ok (⟨r1 ++ '.' :: r2, .Number⟩, ⟨l.source, p1 + 1 + r2.length⟩)) := by
  have hcur0 : l.cur_char ≠ '\x00' := by
    intro h0
    rw [h0] at hd
    exact absurd hd (by decide)
  have hlt := pos_lt_of_cur_ne l hcur0
  have hws : l.skip_whitespace = l := by
    apply skip_whitespace_id
    by_contra hcon
    rw [Bool.not_eq_false] at hcon
    rw [ws_not_digit l.cur_char hcon] at hd
    exact absurd hd (by decide)
  have hcm : l.skip_comment = .ok l := by
    rw [Lexer.skip_comment, if_neg ?_]
    intro h0
    rw [h0] at hd
    exact absurd hd (by decide)
  have hne : ∀ c : Char, c.isDigit = true → ∀ d : Char, d.isDigit = false → c ≠ d := by
    intro c hc d hdn h
    rw [h, hdn] at hc
    exact absurd hc (by decide)
  have hdrop := drop_cur l hlt
  have hr1c : r1 = l.cur_char :: (l.source.drop (l.cur_pos + 1)).takeWhile Char.isDigit := by
    rw [← hr1, hdrop, List.takeWhile_cons, if_pos hd]
  have hred : l.get_token =
      (if (l.skip_digits).peek = '.' then
        if !(((l.skip_digits).next_char).peek.isDigit) then .error .illegalNumber
        else
          .ok (⟨(((l.skip_digits).next_char).skip_digits).slice l.cur_pos
                  ((((l.skip_digits).next_char).skip_digits).cur_pos + 1), .Number⟩,
            (((l.skip_digits).next_char).skip_digits).next_char)
      else .ok (⟨(l.skip_digits).slice l.cur_pos ((l.skip_digits).cur_pos + 1), .Number⟩,
            (l.skip_digits).next_char)) := by
    simp only [Lexer.get_token, hws, hcm]
    rw [if_neg (hne _ hd '+' (by decide)), if_neg (hne _ hd '-' (by decide)),
      if_neg (hne _ hd '*' (by decide)), if_neg (hne _ hd '/' (by decide)),
      if_neg (hne _ hd '"' (by decide)), if_neg (hne _ hd '!' (by decide)),
      if_neg (hne _ hd '=' (by decide)), if_neg (hne _ hd '>' (by decide)),
      if_neg (hne _ hd '<' (by decide)), if_pos hd]
  have hsd := skip_digits_spec l
  set d1 := ((l.source.drop (l.cur_pos + 1)).takeWhile Char.isDigit).length with hd1
  have hlen1 : r1.length = d1 + 1 := by
    rw [hr1c]
    simp [hd1]
  have hp1' : l.cur_pos + d1 + 1 = p1 := by
    rw [hp1, hlen1]
    omega
  have hpeek1 : (l.skip_digits).peek = l.source.getD p1 '\x00' := by
    rw [hsd]
    simp only [Lexer.peek]
    rw [hp1']
  have htake1 : (l.source.drop l.cur_pos).take (d1 + 1) = r1 := by
    rw [← hlen1, ← hr1, take_takeWhile_len]
  refine ⟨?_, ?_, ?_⟩
  · intro hnd
    rw [hred, if_neg (by rw [hpeek1]; exact hnd)]
    rw [hsd]
    simp only [Lexer.slice, Lexer.next_char]
    rw [show l.cur_pos + d1 + 1 - l.cur_pos = d1 + 1 from by omega, htake1, hp1']
  · intro hdot hnd2
    rw [hred, if_pos (by rw [hpeek1]; exact hdot)]
    rw [if_pos ?_]
    rw [hsd]
    simp only [Lexer.next_char, Lexer.peek]
    rw [show l.cur_pos + d1 + 1 + 1 = p1 + 1 from by omega, hnd2]
    rfl
  · intro r2 hdot hdig2 hr2
    rw [hred, if_pos (by rw [hpeek1]; exact hdot)]
    rw [if_neg ?_]
    swap
    · rw [hsd]
      simp only [Lexer.next_char, Lexer.peek]
      rw [show l.cur_pos + d1 + 1 + 1 = p1 + 1 from by omega, hdig2]
      decide
    · rw [hsd]
      simp only [Lexer.next_char]
      rw [skip_digits_spec]
      simp only [Lexer.slice, Lexer.next_char]
      have hplt : p1 < l.source.length := by
        have : l.source.getD p1 '\x00' ≠ '\x00' := by
          rw [hdot]
          decide
        by_contra hc
        push_neg at hc
        exact this (getD_out _ _ hc)
      have hdropp1 : l.source.drop p1 = '.' :: l.source.drop (p1 + 1) := by
        have h1 := drop_cur ⟨l.source, p1⟩ hplt
        simp only [Lexer.cur_char] at h1
        rw [hdot] at h1
        exact h1
      set d2 := ((l.source.drop (l.cur_pos + d1 + 1 + 1)).takeWhile Char.isDigit).length with hd2
      have hd2' : d2 = r2.length := by
        rw [hd2, show l.cur_pos + d1 + 1 + 1 = p1 + 1 from by omega, hr2]
      have hsplit : l.source.drop l.cur_pos = r1 ++ '.' :: l.source.drop (p1 + 1) := by
        have h1 := List.take_append_drop (d1 + 1) (l.source.drop l.cur_pos)
        rw [htake1, List.drop_drop] at h1
        rw [show l.cur_pos + (d1 + 1) = p1 from by omega] at h1
        rw [← h1, hdropp1]
      have htext : (l.source.drop l.cur_pos).take (l.cur_pos + d1 + 1 + d2 + 1 - l.cur_pos) =
          r1 ++ '.' :: r2 := by
        rw [hsplit, show l.cur_pos + d1 + 1 + d2 + 1 - l.cur_pos = r1.length + (1 + r2.length) from by rw [hlen1]; omega]
        rw [List.take_append]
        congr 1
        rw [show (1 + r2.length) = r2.length + 1 from by omega]
        simp only [List.take_succ_cons]
        congr 1
        rw [← hr2, take_takeWhile_len]
      rw [htext, show l.cur_pos + d1 + 1 + d2 + 1 = p1 + 1 + r2.length from by omega]

/-- C5: a decimal point not followed by at least one digit makes
tokenization fail with the illegal-number abort (`LET x = 1.` in
particular, also through the whole pipeline), and otherwise a maximal digit
run, optionally followed by one decimal point and a further maximal digit
run, is returned as one single `Number` token. -/
theorem claim_C5_number_lexing :
    tokenize 40 (Lexer.new "LET x = 1.\n".toList) = .error .illegalNumber ∧
    compile 99 "LET x = 1.\n".toList = .error (.lex .illegalNumber) ∧
    (∀ (l : Lexer) (r1 : Str) (p1 : Nat), l.cur_char.isDigit = true →
      (l.source.drop l.cur_pos).takeWhile Char.isDigit = r1 →
      p1 = l.cur_pos + r1.length →
      (l.source.getD p1 '\x00' = '.' → (l.source.getD (p1 + 1) '\x00').isDigit = false →
        l.get_token = .error .illegalNumber) ∧
      (l.source.getD p1 '\x00' ≠ '.' →
        l.get_token = .ok (⟨r1, .Number⟩, ⟨l.source, p1⟩)) ∧
      (∀ r2 : Str, l.source.getD p1 '\x00' = '.' →
        (l.source.getD (p1 + 1) '\x00').isDigit = true →
        (l.source.drop (p1 + 1)).takeWhile Char.isDigit = r2 →
        l.get_token = .ok (⟨r1 ++ '.' :: r2, .Number⟩, ⟨l.source, p1 + 1 + r2.length⟩))) := by
  refine ⟨by decide, by decide, ?_⟩
  intro l r1 p1 hd hr1 hp1
  obtain ⟨h1, h2, h3⟩ := get_token_digit_case l hd r1 hr1 p1 hp1
  exact ⟨h2, h1, h3⟩

/-- Witness for the hypothesised parts of the C5 theorem: the bare trailing
point `1.` aborts, `7` (followed by `+`) is one maximal-run token, `12.5`
is one token spanning both runs and the point. -/
theorem claim_C5_number_lexing_witness :
    Lexer.get_token ⟨"1.\n".toList, 0⟩ = .error .illegalNumber ∧
    Lexer.get_token ⟨"7+\n".toList, 0⟩ = .ok (⟨"7".toList, .Number⟩, ⟨"7+\n".toList, 1⟩) ∧
    Lexer.get_token ⟨"12.5\n".toList, 0⟩ =
      .ok (⟨"12.5".toList, .Number⟩, ⟨"12.5\n".toList, 4⟩) :=
  ⟨(claim_C5_number_lexing.2.2 ⟨"1.\n".toList, 0⟩ "1".toList 1 (by decide) (by decide)
      (by decide)).1 (by decide) (by decide),
   (claim_C5_number_lexing.2.2 ⟨"7+\n".toList, 0⟩ "7".toList 1 (by decide) (by decide)
      (by decide)).2.1 (by decide),
   (claim_C5_number_lexing.2.2 ⟨"12.5\n".toList, 0⟩ "12".toList 2 (by decide) (by decide)
      (by decide)).2.2 "5".toList (by decide) (by decide) (by decide)⟩

/-- Growth relation between two parser/emitter states: the symbol table and
both label sets only gain elements, and the two emission buffers only grow
by appending (the old content is a prefix of the new). -/
def PExt (st st' : PState) : Prop :=
  (∀ x ∈ st.symbols, x ∈ st'.symbols) ∧
  (∀ x ∈ st.labels_declared, x ∈ st'.labels_declared) ∧
  (∀ x ∈ st.labels_gotoed, x ∈ st'.labels_gotoed) ∧
  (∃ t, st'.header = st.header ++ t) ∧
  (∃ t, st'.code = st.code ++ t)

lemma pext_refl (st : PState) : PExt st st :=
  ⟨fun _ h => h, fun _ h => h, fun _ h => h, ⟨[], by simp⟩, ⟨[], by simp⟩⟩

lemma pext_of_eq {st st' : PState} (h : st = st') : PExt st st' := h ▸ pext_refl st

lemma pext_trans {a b c : PState} (h1 : PExt a b) (h2 : PExt b c) : PExt a c := by
  obtain ⟨s1, d1, g1, ⟨t1, hh1⟩, ⟨u1, hc1⟩⟩ := h1
  obtain ⟨s2, d2, g2, ⟨t2, hh2⟩, ⟨u2, hc2⟩⟩ := h2
  refine ⟨fun x h => s2 x (s1 x h), fun x h => d2 x (d1 x h), fun x h => g2 x (g1 x h),
    ⟨t1 ++ t2, ?_⟩, ⟨u1 ++ u2, ?_⟩⟩
  · rw [hh2, hh1, List.append_assoc]
  · rw [hc2, hc1, List.append_assoc]

lemma pext_emit (st : PState) (s : Str) : PExt st (st.emit s) :=
  ⟨fun _ h => h, fun _ h => h, fun _ h => h, ⟨[], by simp [PState.emit]⟩, ⟨s, rfl⟩⟩

lemma pext_emit_line (st : PState) (s : Str) : PExt st (st.emit_line s) :=
  ⟨fun _ h => h, fun _ h => h, fun _ h => h, ⟨[], by simp [PState.emit_line]⟩,
   ⟨s ++ ['\n'], by simp [PState.emit_line]⟩⟩

lemma pext_header_line (st : PState) (s : Str) : PExt st (st.header_line s) :=
  ⟨fun _ h => h, fun _ h => h, fun _ h => h,
   ⟨s ++ ['\n'], by simp [PState.header_line]⟩, ⟨[], by simp [PState.header_line]⟩⟩

lemma pext_hs_insert (xs : List Str) (x : Str) : ∀ y ∈ xs, y ∈ hs_insert xs x := by
  intro y hy
  unfold hs_insert
  by_cases hm : x ∈ xs
  · rw [if_pos hm]; exact hy
  · rw [if_neg hm]; exact List.mem_append_left _ hy

lemma pext_next_token {st st' : PState} (h : st.next_token = .ok st') : PExt st st' := by
  unfold PState.next_token at h
  cases h0 : st.lexer.get_token with
  | error e => rw [h0] at h; exact absurd h (by simp)
  | ok p =>
    obtain ⟨t, l'⟩ := p
    rw [h0] at h
    dsimp only at h
    injection h with h
    subst h
    exact ⟨fun _ h => h, fun _ h => h, fun _ h => h, ⟨[], by simp⟩, ⟨[], by simp⟩⟩

lemma pext_match_token {st st' : PState} {k : TokenType}
    (h : st.match_token k = .ok st') : PExt st st' := by
  unfold PState.match_token at h
  by_cases hc : st.check_token k = true
  · rw [if_pos hc] at h; exact pext_next_token h
  · rw [if_neg hc] at h; exact absurd h (by simp)

lemma pext_primary {st st' : PState} (h : primary st = .ok st') : PExt st st' := by
  cases hk : st.cur_token.kind <;> simp only [primary, hk] at h <;>
    try exact absurd h (by simp)
  case Number => exact pext_trans (pext_emit _ _) (pext_next_token h)
  case Ident =>
    by_cases hm : st.cur_token.text ∈ st.symbols
    · rw [if_pos hm] at h
      exact pext_trans (pext_emit _ _) (pext_next_token h)
    · rw [if_neg hm] at h
      exact absurd h (by simp)

lemma pext_unary {st st' : PState} (h : unary st = .ok st') : PExt st st' := by
  unfold unary at h
  by_cases hc : (st.check_token .Plus || st.check_token .Minus) = true
  · rw [if_pos hc] at h
    cases hn : (st.emit st.cur_token.text).next_token with
    | error e => rw [hn] at h; exact absurd h (by simp)
    | ok st1 =>
      rw [hn] at h
      dsimp only at h
      exact pext_trans (pext_trans (pext_emit _ _) (pext_next_token hn)) (pext_primary h)
  · rw [if_neg hc] at h
    exact pext_primary h

lemma pext_term_go : ∀ (f : Nat) {st st' : PState}, term_go f st = .ok st' → PExt st st' := by
  intro f
  induction f with
  | zero => intro st st' h; simp [term_go] at h
  | succ f ih =>
    intro st st' h
    rw [term_go] at h
    by_cases hc : (st.check_token .Asterisk || st.check_token .Slash) = true
    · rw [if_pos hc] at h
      cases hn : (st.emit st.cur_token.text).next_token with
      | error e => rw [hn] at h; exact absurd h (by simp)
      | ok st1 =>
        rw [hn] at h
        dsimp only at h
        cases hu : unary st1 with
        | error e => rw [hu] at h; exact absurd h (by simp)
        | ok st2 =>
          rw [hu] at h
          dsimp only at h
          exact pext_trans (pext_trans (pext_trans (pext_emit _ _) (pext_next_token hn))
            (pext_unary hu)) (ih h)
    · rw [if_neg hc] at h
      injection h with h
      exact pext_of_eq h

lemma pext_term {f : Nat} {st st' : PState} (h : term f st = .ok st') : PExt st st' := by
  unfold term at h
  cases hu : unary st with
  | error e => rw [hu] at h; exact absurd h (by simp)
  | ok st1 =>
    rw [hu] at h
    dsimp only at h
    exact pext_trans (pext_unary hu) (pext_term_go f h)

lemma pext_expression_go : ∀ (f : Nat) {st st' : PState},
    expression_go f st = .ok st' → PExt st st' := by
  intro f
  induction f with
  | zero => intro st st' h; simp [expression_go] at h
  | succ f ih =>
    intro st st' h
    rw [expression_go] at h
    by_cases hc : (st.check_token .Plus || st.check_token .Minus) = true
    · rw [if_pos hc] at h
      cases hn : (st.emit st.cur_token.text).next_token with
      | error e => rw [hn] at h; exact absurd h (by simp)
      | ok st1 =>
        rw [hn] at h
        dsimp only at h
        cases ht : term f st1 with
        | error e => rw [ht] at h; exact absurd h (by simp)
        | ok st2 =>
          rw [ht] at h
          dsimp only at h
          exact pext_trans (pext_trans (pext_trans (pext_emit _ _) (pext_next_token hn))
            (pext_term ht)) (ih h)
    · rw [if_neg hc] at h
      injection h with h
      exact pext_of_eq h

lemma pext_expression {f : Nat} {st st' : PState} (h : expression f st = .ok st') :
    PExt st st' := by
  unfold expression at h
  cases ht : term f st with
  | error e => rw [ht] at h; exact absurd h (by simp)
  | ok st1 =>
    rw [ht] at h
    dsimp only at h
    exact pext_trans (pext_term ht) (pext_expression_go f h)

lemma pext_comparison_go : ∀ (f : Nat) {st st' : PState},
    comparison_go f st = .ok st' → PExt st st' := by
  intro f
  induction f with
  | zero => intro st st' h; simp [comparison_go] at h
  | succ f ih =>
    intro st st' h
    rw [comparison_go] at h
    by_cases hc : st.is_comparison_operator = true
    · rw [if_pos hc] at h
      cases hn : (st.emit st.cur_token.text).next_token with
      | error e => rw [hn] at h; exact absurd h (by simp)
      | ok st1 =>
        rw [hn] at h
        dsimp only at h
        cases he : expression f st1 with
        | error e => rw [he] at h; exact absurd h (by simp)
        | ok st2 =>
          rw [he] at h
          dsimp only at h
          exact pext_trans (pext_trans (pext_trans (pext_emit _ _) (pext_next_token hn))
            (pext_expression he)) (ih h)
    · rw [if_neg hc] at h
      injection h with h
      exact pext_of_eq h

lemma pext_comparison {f : Nat} {st st' : PState} (h : comparison f st = .ok st') :
    PExt st st' := by
  unfold comparison at h
  cases he : expression f st with
  | error e => rw [he] at h; exact absurd h (by simp)
  | ok st1 =>
    rw [he] at h
    dsimp only at h
    by_cases hc : st1.is_comparison_operator = true
    · rw [if_pos hc] at h
      cases hn : (st1.emit st1.cur_token.text).next_token with
      | error e => rw [hn] at h; exact absurd h (by simp)
      | ok st2 =>
        rw [hn] at h
        dsimp only at h
        cases he2 : expression f st2 with
        | error e => rw [he2] at h; exact absurd h (by simp)
        | ok st3 =>
          rw [he2] at h
          dsimp only at h
          exact pext_trans (pext_expression he)
            (pext_trans (pext_trans (pext_trans (pext_emit _ _) (pext_next_token hn))
              (pext_expression he2)) (pext_comparison_go f h))
    · rw [if_neg hc] at h
      exact absurd h (by simp)

lemma pext_skip_newlines : ∀ (f : Nat) {st st' : PState},
    skip_newlines f st = .ok st' → PExt st st' := by
  intro f
  induction f with
  | zero => intro st st' h; simp [skip_newlines] at h
  | succ f ih =>
    intro st st' h
    rw [skip_newlines] at h
    by_cases hc : st.check_token .Newline = true
    · rw [if_pos hc] at h
      cases hn : st.next_token with
      | error e => rw [hn] at h; exact absurd h (by simp)
      | ok st1 =>
        rw [hn] at h
        dsimp only at h
        exact pext_trans (pext_next_token hn) (ih h)
    · rw [if_neg hc] at h
      injection h with h
      exact pext_of_eq h

lemma pext_nl {f : Nat} {st st' : PState} (h : nl f st = .ok st') : PExt st st' := by
  unfold nl at h
  cases hm : st.match_token .Newline with
  | error e => rw [hm] at h; exact absurd h (by simp)
  | ok st1 =>
    rw [hm] at h
    dsimp only at h
    exact pext_trans (pext_match_token hm) (pext_skip_newlines f h)

/-- Inversion for the error-propagating matches of `src/parser.rs` (every
`abort` unwinds, so a chain step only continues on success). -/
lemma pbind_ok {x : Except CompErr PState} {g : PState → Except CompErr PState} {b : PState}
    (h : (match x with | .error e => (.error e : Except CompErr PState) | .ok a => g a) = .ok b) :
    ∃ a, x = .ok a ∧ g a = .ok b := by
  cases x with
  | error e => simp at h
  | ok a => exact ⟨a, rfl, h⟩

example (f : Nat) (st st' : PState) (h : statement (f + 1) st = .ok st')
    (hk : st.cur_token.kind = .Print) : PExt st st' := by
  simp only [statement, hk] at h
  obtain ⟨stm, hb, hnl⟩ := pbind_ok h
  obtain ⟨st1, h1, hb2⟩ := pbind_ok hb
  by_cases hs : st1.check_token .String = true
  · rw [if_pos hs] at hb2
    exact pext_trans (pext_next_token h1)
      (pext_trans (pext_trans (pext_emit_line _ _) (pext_next_token hb2))
        (pext_nl hnl))
  · rw [if_neg hs] at hb2
    obtain ⟨st2, h2, hb3⟩ := pbind_ok hb2
    injection hb3 with hb3
    subst hb3
    exact pext_trans (pext_next_token h1)
      (pext_trans (pext_trans (pext_trans (pext_emit _ _) (pext_expression h2))
        (pext_emit_line _ _)) (pext_nl hnl))

/-- Monotone growth through `Parser::statement` and the statement loops,
jointly by induction on the fuel. -/
lemma pext_statement_go : ∀ f : Nat,
    (∀ {st st' : PState}, statement f st = .ok st' → PExt st st') ∧
    (∀ (stop : TokenType) {st st' : PState}, stmt_go f stop st = .ok st' → PExt st st') := by
  intro f
  induction f with
  | zero =>
    refine ⟨?_, ?_⟩
    · intro st st' h
      simp [statement] at h
    · intro stop st st' h
      simp [stmt_go] at h
  | succ f ih =>
    obtain ⟨ihs, ihl⟩ := ih
    refine ⟨?_, ?_⟩
    · intro st st' h
      simp only [statement] at h
      cases hk : st.cur_token.kind <;> simp only [hk] at h <;>
        try exact Except.noConfusion h
      case Print =>
        obtain ⟨stm, hb, hnl⟩ := pbind_ok h
        obtain ⟨st1, h1, hb1⟩ := pbind_ok hb
        by_cases hs : st1.check_token .String = true
        · rw [if_pos hs] at hb1
          exact pext_trans (pext_next_token h1)
            (pext_trans (pext_trans (pext_emit_line _ _) (pext_next_token hb1)) (pext_nl hnl))
        · rw [if_neg hs] at hb1
          obtain ⟨st2, h2, hb2⟩ := pbind_ok hb1
          injection hb2 with hb2
          subst hb2
          exact pext_trans (pext_next_token h1)
            (pext_trans (pext_trans (pext_trans (pext_emit _ _) (pext_expression h2))
              (pext_emit_line _ _)) (pext_nl hnl))
      case If =>
        obtain ⟨stm, hb, hnl⟩ := pbind_ok h
        obtain ⟨st1, h1, hb1⟩ := pbind_ok hb
        obtain ⟨st2, h2, hb2⟩ := pbind_ok hb1
        obtain ⟨st3, h3, hb3⟩ := pbind_ok hb2
        obtain ⟨st4, h4, hb4⟩ := pbind_ok hb3
        obtain ⟨st5, h5, hb5⟩ := pbind_ok hb4
        obtain ⟨st6, h6, hb6⟩ := pbind_ok hb5
        injection hb6 with hb6
        subst hb6
        exact pext_trans (pext_next_token h1)
          (pext_trans (pext_trans (pext_emit _ _) (pext_comparison h2))
            (pext_trans (pext_match_token h3)
              (pext_trans (pext_nl h4)
                (pext_trans (pext_trans (pext_emit_line _ _) (ihl _ h5))
                  (pext_trans (pext_match_token h6)
                    (pext_trans (pext_emit_line _ _) (pext_nl hnl)))))))
      case While =>
        obtain ⟨stm, hb, hnl⟩ := pbind_ok h
        obtain ⟨st1, h1, hb1⟩ := pbind_ok hb
        obtain ⟨st2, h2, hb2⟩ := pbind_ok hb1
        obtain ⟨st3, h3, hb3⟩ := pbind_ok hb2
        obtain ⟨st4, h4, hb4⟩ := pbind_ok hb3
        obtain ⟨st5, h5, hb5⟩ := pbind_ok hb4
        obtain ⟨st6, h6, hb6⟩ := pbind_ok hb5
        injection hb6 with hb6
        subst hb6
        exact pext_trans (pext_next_token h1)
          (pext_trans (pext_trans (pext_emit _ _) (pext_comparison h2))
            (pext_trans (pext_match_token h3)
              (pext_trans (pext_nl h4)
                (pext_trans (pext_trans (pext_emit_line _ _) (ihl _ h5))
                  (pext_trans (pext_match_token h6)
                    (pext_trans (pext_emit_line _ _) (pext_nl hnl)))))))
      case Label =>
        obtain ⟨stm, hb, hnl⟩ := pbind_ok h
        obtain ⟨st1, h1, hb1⟩ := pbind_ok hb
        by_cases hm : st1.cur_token.text ∈ st1.labels_declared
        · rw [if_pos hm] at hb1
          exact absurd hb1 (by simp)
        · rw [if_neg hm] at hb1
          have hupd : PExt st1
              { st1 with labels_declared := hs_insert st1.labels_declared st1.cur_token.text } :=
            ⟨fun _ hh => hh, fun x hx => pext_hs_insert _ _ x hx, fun _ hh => hh,
             ⟨[], by simp⟩, ⟨[], by simp⟩⟩
          exact pext_trans (pext_next_token h1)
            (pext_trans hupd
              (pext_trans (pext_trans (pext_emit_line _ _) (pext_match_token hb1))
                (pext_nl hnl)))
      case GoTo =>
        obtain ⟨stm, hb, hnl⟩ := pbind_ok h
        obtain ⟨st1, h1, hb1⟩ := pbind_ok hb
        have hupd : PExt st1
            { st1 with labels_gotoed := hs_insert st1.labels_gotoed st1.cur_token.text } :=
          ⟨fun _ hh => hh, fun _ hh => hh, fun x hx => pext_hs_insert _ _ x hx,
           ⟨[], by simp⟩, ⟨[], by simp⟩⟩
        exact pext_trans (pext_next_token h1)
          (pext_trans hupd
            (pext_trans (pext_trans (pext_emit_line _ _) (pext_match_token hb1))
              (pext_nl hnl)))
      case Let =>
        obtain ⟨stm, hb, hnl⟩ := pbind_ok h
        obtain ⟨st1, h1, hb1⟩ := pbind_ok hb
        obtain ⟨st3, h3, hb3⟩ := pbind_ok hb1
        obtain ⟨st4, h4, hb4⟩ := pbind_ok hb3
        obtain ⟨st5, h5, hb5⟩ := pbind_ok hb4
        injection hb5 with hb5
        subst hb5
        have hif : PExt st1
            (if st1.cur_token.text ∈ st1.symbols then st1
             else ({ st1 with symbols := hs_insert st1.symbols st1.cur_token.text }).header_line
               ("float ".toList ++ st1.cur_token.text ++ ";".toList)) := by
          by_cases hm : st1.cur_token.text ∈ st1.symbols
          · rw [if_pos hm]
            exact pext_refl st1
          · rw [if_neg hm]
            have hstep : PExt st1
                { st1 with symbols := hs_insert st1.symbols st1.cur_token.text } :=
              ⟨fun x hx => pext_hs_insert _ _ x hx, fun _ hh => hh, fun _ hh => hh,
               ⟨[], by simp⟩, ⟨[], by simp⟩⟩
            exact pext_trans hstep (pext_header_line _ _)
        exact pext_trans (pext_next_token h1)
          (pext_trans hif
            (pext_trans (pext_trans (pext_emit _ _) (pext_match_token h3))
              (pext_trans (pext_match_token h4)
                (pext_trans (pext_expression h5)
                  (pext_trans (pext_emit_line _ _) (pext_nl hnl))))))
      case Input =>
        obtain ⟨stm, hb, hnl⟩ := pbind_ok h
        obtain ⟨st1, h1, hb1⟩ := pbind_ok hb
        have hif : PExt st1
            (if st1.cur_token.text ∈ st1.symbols then st1
             else ({ st1 with symbols := hs_insert st1.symbols st1.cur_token.text }).header_line
               ("float ".toList ++ st1.cur_token.text ++ ";".toList)) := by
          by_cases hm : st1.cur_token.text ∈ st1.symbols
          · rw [if_pos hm]
            exact pext_refl st1
          · rw [if_neg hm]
            have hstep : PExt st1
                { st1 with symbols := hs_insert st1.symbols st1.cur_token.text } :=
              ⟨fun x hx => pext_hs_insert _ _ x hx, fun _ hh => hh, fun _ hh => hh,
               ⟨[], by simp⟩, ⟨[], by simp⟩⟩
            exact pext_trans hstep (pext_header_line _ _)
        exact pext_trans (pext_next_token h1)
          (pext_trans hif
            (pext_trans (pext_emit_line _ _)
              (pext_trans (pext_emit_line _ _)
                (pext_trans (pext_emit _ _)
                  (pext_trans (pext_emit_line _ _)
                    (pext_trans (pext_emit_line _ _)
                      (pext_trans (pext_match_token hb1) (pext_nl hnl))))))))
    · intro stop st st' h
      simp only [stmt_go] at h
      by_cases hc : st.check_token stop = true
      · rw [if_pos hc] at h
        injection h with h
        exact pext_of_eq h
      · rw [if_neg hc] at h
        obtain ⟨st1, h1, h2⟩ := pbind_ok h
        exact pext_trans (ihs h1) (ihl _ h2)

/-- Monotone growth through `Parser::program`. -/
lemma pext_program {f : Nat} {st st' : PState} (h : program f st = .ok st') : PExt st st' := by
  simp only [program] at h
  obtain ⟨st2, h2, hb⟩ := pbind_ok h
  obtain ⟨st3, h3, hb3⟩ := pbind_ok hb
  cases hl : label_check
      (((st3.emit_line "return 0;".toList).emit_line "\x7d".toList).labels_gotoed)
      (((st3.emit_line "return 0;".toList).emit_line "\x7d".toList).labels_declared) with
  | error e =>
    rw [hl] at hb3
    exact absurd hb3 (by simp)
  | ok u =>
    rw [hl] at hb3
    dsimp only at hb3
    injection hb3 with hb3
    subst hb3
    exact pext_trans (pext_header_line _ _)
      (pext_trans (pext_header_line _ _)
        (pext_trans (pext_skip_newlines f h2)
          (pext_trans ((pext_statement_go f).2 .Eof h3)
            (pext_trans (pext_emit_line _ _) (pext_emit_line _ _)))))

/-- C8: throughout a compilation the symbol table and both label sets only
gain elements, the preamble and body buffers only grow by appending (old
content stays a prefix), and the final output is the preamble buffer
concatenated with the body buffer. -/
theorem claim_C8_monotone_state :
    (∀ (st : PState) (s : Str), PExt st (st.emit s)) ∧
    (∀ (st : PState) (s : Str), PExt st (st.emit_line s)) ∧
    (∀ (st : PState) (s : Str), PExt st (st.header_line s)) ∧
    (∀ (f : Nat) (st st' : PState), statement f st = .ok st' → PExt st st') ∧
    (∀ (f : Nat) (st st' : PState), program f st = .ok st' → PExt st st') ∧
    (∀ (f : Nat) (src : Str) (stf : PState), compile_st f src = .ok stf →
      compile f src = .ok (stf.header ++ stf.code)) := by
  refine ⟨pext_emit, pext_emit_line, pext_header_line, ?_, ?_, ?_⟩
  · intro f st st' h
    exact (pext_statement_go f).1 h
  · intro f st st' h
    exact pext_program h
  · intro f src stf h
    unfold compile
    rw [h]

/-- Parser state over `PRINT 1` / `PRINT 2` after the two constructor
token pulls. -/
def c8_ready : PState :=
  let start : PState :=
    { lexer := Lexer.new "PRINT 1\nPRINT 2\n".toList
      cur_token := ⟨[], .Unknown⟩
      peek_token := ⟨[], .Unknown⟩
      symbols := []
      labels_declared := []
      labels_gotoed := []
      header := []
      code := [] }
  match start.next_token with
  | .error _ => start
  | .ok s1 =>
    match s1.next_token with
    | .error _ => s1
    | .ok s2 => s2

/-- Result of one `statement` step from `c8_ready`. -/
def c8_stmt_out : PState :=
  match statement 50 c8_ready with
  | .ok s => s
  | .error _ => c8_ready

/-- Result of `program` from `c8_ready`. -/
def c8_prog_out : PState :=
  match program 50 c8_ready with
  | .ok s => s
  | .error _ => c8_ready

/-- Final state of the whole pipeline on `PRINT 1`. -/
def c8_compile_out : PState :=
  match compile_st 50 "PRINT 1\n".toList with
  | .ok s => s
  | .error _ => c8_ready

/-- Witness for the hypothesised parts of the C8 theorem, at concrete
successful runs. -/
theorem claim_C8_monotone_state_witness :
    PExt c8_ready c8_stmt_out ∧ PExt c8_ready c8_prog_out ∧
    compile 50 "PRINT 1\n".toList = .ok (c8_compile_out.header ++ c8_compile_out.code) :=
  ⟨claim_C8_monotone_state.2.2.2.1 50 c8_ready c8_stmt_out (by decide),
   claim_C8_monotone_state.2.2.2.2.1 50 c8_ready c8_prog_out (by decide),
   claim_C8_monotone_state.2.2.2.2.2 50 "PRINT 1\n".toList c8_compile_out (by decide)⟩

/-- Comment removal as the lexer performs it: outside a comment a `#`
switches into comment mode; inside, characters are discarded up to (not
including) the next newline. -/
def stripCommentsAux : Bool → Str → Str
  | _, [] => []
  | true, c :: r => if c = '\n' then c :: stripCommentsAux false r else stripCommentsAux true r
  | false, c :: r => if c = '#' then stripCommentsAux true r else c :: stripCommentsAux false r

def stripComments (s : Str) : Str := stripCommentsAux false s

/-- Normal form of a source text: comments removed, whitespace (space, tab,
carriage return) removed; newlines and all other characters survive. -/
def norm_text (s : Str) : Str := (stripComments s).filter (fun c => !Lexer.is_ws c)

lemma stripCommentsAux_true_eq (r : Str) :
    stripCommentsAux true r = stripComments (r.dropWhile (fun c => !(c = '\n'))) := by
  induction r with
  | nil => rfl
  | cons c r ih =>
    by_cases h : c = '\n'
    · subst h
      simp [stripCommentsAux, stripComments, List.dropWhile_cons]
    · simp [stripCommentsAux, List.dropWhile_cons, h, ih]

lemma norm_text_cons_ws {c : Char} (h : Lexer.is_ws c = true) (r : Str) :
    norm_text (c :: r) = norm_text r := by
  have hc : c ≠ '#' := by
    intro h0
    rw [h0] at h
    exact absurd h (by decide)
  unfold norm_text stripComments
  rw [stripCommentsAux, if_neg hc]
  simp [List.filter_cons, h]

lemma norm_text_cons_keep {c : Char} (h1 : Lexer.is_ws c = false) (h2 : c ≠ '#') (r : Str) :
    norm_text (c :: r) = c :: norm_text r := by
  unfold norm_text stripComments
  rw [stripCommentsAux, if_neg h2]
  simp [List.filter_cons, h1]

lemma norm_text_comment (r : Str) :
    norm_text ('#' :: r) = norm_text (r.dropWhile (fun c => !(c = '\n'))) := by
  unfold norm_text stripComments
  rw [stripCommentsAux, if_pos rfl, stripCommentsAux_true_eq]
  rfl

lemma norm_text_append_keep {t : Str} (h : ∀ c ∈ t, Lexer.is_ws c = false ∧ c ≠ '#')
    (r : Str) : norm_text (t ++ r) = t ++ norm_text r := by
  induction t with
  | nil => simp
  | cons c ts ih =>
    have hc := h c (List.mem_cons_self c ts)
    rw [List.cons_append, norm_text_cons_keep hc.1 hc.2, ih (fun x hx => h x (List.mem_cons_of_mem c hx))]
    rfl

lemma norm_text_ws_run {t : Str} (h : ∀ c ∈ t, Lexer.is_ws c = true) (r : Str) :
    norm_text (t ++ r) = norm_text r := by
  induction t with
  | nil => simp
  | cons c ts ih =>
    rw [List.cons_append, norm_text_cons_ws (h c (List.mem_cons_self c ts)),
      ih (fun x hx => h x (List.mem_cons_of_mem c hx))]

lemma digit_not_ws {c : Char} (h : c.isDigit = true) : Lexer.is_ws c = false ∧ c ≠ '#' := by
  constructor
  · by_contra hc
    rw [Bool.not_eq_false] at hc
    rw [ws_not_digit c hc] at h
    exact absurd h (by decide)
  · intro h0
    rw [h0] at h
    exact absurd h (by decide)

lemma alnum_not_ws {c : Char} (h : rust_is_alphanumeric c = true) :
    Lexer.is_ws c = false ∧ c ≠ '#' := by
  constructor
  · by_contra hc
    rw [Bool.not_eq_false, Lexer.is_ws] at hc
    simp only [Bool.or_eq_true, decide_eq_true_eq] at hc
    obtain (hc | hc) | hc := hc <;> rw [hc] at h <;> exact absurd h (by decide)
  · intro h0
    rw [h0] at h
    exact absurd h (by decide)

lemma alpha_alnum {c : Char} (h : c.isAlpha = true) : rust_is_alphanumeric c = true := by
  rw [rust_is_alphanumeric, h]
  rfl

lemma alpha_not_digit {c : Char} (h : c.isAlpha = true) : c.isDigit = false := by
  rw [Char.isAlpha, Char.isUpper, Char.isLower] at h
  simp only [Bool.or_eq_true, Bool.and_eq_true, decide_eq_true_eq, ge_iff_le] at h
  by_contra hcon
  rw [Bool.not_eq_false, Char.isDigit] at hcon
  simp only [Bool.and_eq_true, decide_eq_true_eq, ge_iff_le] at hcon
  obtain ⟨hd1, hd2⟩ := hcon
  have hd2n : c.val.toNat ≤ (57 : Nat) := hd2
  rcases h with ⟨h1, h2⟩ | ⟨h1, h2⟩
  · have h1n : (65 : Nat) ≤ c.val.toNat := h1
    omega
  · have h1n : (97 : Nat) ≤ c.val.toNat := h1
    omega

lemma ws_not_alpha {c : Char} (h : Lexer.is_ws c = true) : c.isAlpha = false := by
  rw [Lexer.is_ws] at h
  simp only [Bool.or_eq_true, decide_eq_true_eq] at h
  obtain (h | h) | h := h <;> subst h <;> decide

/-- Dropping the position advance of a maximal run lands on the rest. -/
lemma drop_pos_run (S : Str) (pos : Nat) (p : Char → Bool) :
    S.drop (pos + ((S.drop pos).takeWhile p).length) = (S.drop pos).dropWhile p := by
  have h1 : S.drop (pos + ((S.drop pos).takeWhile p).length) =
      (S.drop pos).drop (((S.drop pos).takeWhile p).length) := by
    rw [List.drop_drop, Nat.add_comm]
  rw [h1]
  have h2 := List.drop_left ((S.drop pos).takeWhile p) ((S.drop pos).dropWhile p)
  rwa [List.takeWhile_append_dropWhile] at h2

/-- Full behaviour of `Lexer::get_token` on a letter current character: the
token is the maximal alphanumeric run, classified by the keyword table. -/
lemma get_token_alpha_case (l : Lexer) (ha : l.cur_char.isAlpha = true)
    (r : Str) (hr : (l.source.drop l.cur_pos).takeWhile rust_is_alphanumeric = r) :
    l.get_token = .ok (⟨r, classify_ident r⟩, ⟨l.source, l.cur_pos + r.length⟩) := by
  have hcur0 : l.cur_char ≠ '\x00' := by
    intro h0
    rw [h0] at ha
    exact absurd ha (by decide)
  have hlt := pos_lt_of_cur_ne l hcur0
  have hws : l.skip_whitespace = l := by
    apply skip_whitespace_id
    by_contra hcon
    rw [Bool.not_eq_false] at hcon
    rw [ws_not_alpha hcon] at ha
    exact absurd ha (by decide)
  have hcm : l.skip_comment = .ok l := by
    rw [Lexer.skip_comment, if_neg ?_]
    intro h0
    rw [h0] at ha
    exact absurd ha (by decide)
  have hne : ∀ d : Char, d.isAlpha = false → l.cur_char ≠ d := by
    intro d hdn h
    rw [h, hdn] at ha
    exact absurd ha (by decide)
  have hr1c : r = l.cur_char :: (l.source.drop (l.cur_pos + 1)).takeWhile rust_is_alphanumeric := by
    rw [← hr, drop_cur l hlt, List.takeWhile_cons, if_pos (alpha_alnum ha)]
  have hsa := skip_alnum_spec l
  set d1 := ((l.source.drop (l.cur_pos + 1)).takeWhile rust_is_alphanumeric).length with hd1
  have hlen1 : r.length = d1 + 1 := by
    rw [hr1c]
    simp [hd1]
  simp only [Lexer.get_token, hws, hcm]
  rw [if_neg (hne '+' (by decide)), if_neg (hne '-' (by decide)),
    if_neg (hne '*' (by decide)), if_neg (hne '/' (by decide)),
    if_neg (hne '"' (by decide)), if_neg (hne '!' (by decide)),
    if_neg (hne '=' (by decide)), if_neg (hne '>' (by decide)),
    if_neg (hne '<' (by decide)), if_neg (by rw [alpha_not_digit ha]; decide), if_pos ha]
  rw [hsa]
  simp only [Lexer.slice, Lexer.next_char]
  rw [show l.cur_pos + d1 + 1 - l.cur_pos = d1 + 1 from by omega]
  have htake : (l.source.drop l.cur_pos).take (d1 + 1) = r := by
    rw [← hlen1, ← hr, take_takeWhile_len]
  rw [htake, show l.cur_pos + d1 + 1 = l.cur_pos + r.length from by omega]

lemma cur_mem (l : Lexer) (h : l.cur_pos < l.source.length) : l.cur_char ∈ l.source := by
  rw [Lexer.cur_char, List.getD_eq_getElem _ _ h]
  exact List.getElem_mem h

lemma drop_cons_at (S : Str) (n : Nat) (h : n < S.length) :
    S.drop n = S.getD n '\x00' :: S.drop (n + 1) := by
  have h1 := drop_cur ⟨S, n⟩ h
  simpa [Lexer.cur_char] using h1

lemma split_run (S : Str) (pos : Nat) (p : Char → Bool) :
    S.drop pos =
      (S.drop pos).takeWhile p ++ S.drop (pos + ((S.drop pos).takeWhile p).length) := by
  conv_lhs => rw [← List.take_append_drop ((S.drop pos).takeWhile p).length (S.drop pos)]
  rw [take_takeWhile_len]
  congr 1
  rw [List.drop_drop, Nat.add_comm]

lemma classify_ident_ne_eof (s : Str) : classify_ident s ≠ .Eof := by
  unfold classify_ident Token.check_if_keyword
  split_ifs <;> decide

/-- Single consumption step of `Lexer::get_token` on a state where the
whitespace and comment skips are the identity: the returned token's text is
exactly the normal-form prefix of the unread source. -/
lemma get_token_consume_core (l : Lexer) (hw : Lexer.is_ws l.cur_char = false)
    (hc : l.cur_char ≠ '#') (h0 : '\x00' ∉ l.source) (hq : '"' ∉ l.source)
    {t : Token} {l' : Lexer} (h : l.get_token = .ok (t, l')) :
    l'.source = l.source ∧
    (t.kind = .Eof → norm_text (l.source.drop l.cur_pos) = []) ∧
    (t.kind ≠ .Eof →
      norm_text (l.source.drop l.cur_pos) = t.text ++ norm_text (l.source.drop l'.cur_pos)) := by
  have hws : l.skip_whitespace = l := skip_whitespace_id l hw
  have hsc : l.skip_comment = .ok l := by rw [Lexer.skip_comment, if_neg hc]
  have horig := h
  simp only [Lexer.get_token, hws, hsc] at h
  have hsingle : l.cur_char ≠ '\x00' → ∀ k : TokenType, k ≠ TokenType.Eof →
      (l.next_char).source = l.source ∧
      ((⟨[l.cur_char], k⟩ : Token).kind = .Eof → norm_text (l.source.drop l.cur_pos) = []) ∧
      ((⟨[l.cur_char], k⟩ : Token).kind ≠ .Eof →
        norm_text (l.source.drop l.cur_pos) =
          [l.cur_char] ++ norm_text (l.source.drop (l.next_char).cur_pos)) := by
    intro hcur0 k hk
    refine ⟨rfl, fun hEof => absurd hEof hk, fun _ => ?_⟩
    have hlt := pos_lt_of_cur_ne l hcur0
    rw [drop_cur l hlt, norm_text_cons_keep hw hc]
    rfl
  have hdouble : l.peek ≠ '\x00' → Lexer.is_ws l.peek = false → l.peek ≠ '#' →
      ∀ k : TokenType, k ≠ TokenType.Eof →
      ((l.next_char.next_char).source = l.source ∧
      ((⟨[l.cur_char, l.next_char.cur_char], k⟩ : Token).kind = .Eof →
        norm_text (l.source.drop l.cur_pos) = []) ∧
      ((⟨[l.cur_char, l.next_char.cur_char], k⟩ : Token).kind ≠ .Eof →
        norm_text (l.source.drop l.cur_pos) =
          [l.cur_char, l.next_char.cur_char] ++
            norm_text (l.source.drop (l.next_char.next_char).cur_pos))) := by
    intro hpk0 hpw hph k hk
    refine ⟨rfl, fun hEof => absurd hEof hk, fun _ => ?_⟩
    have hplt := peek_lt_of_ne l hpk0
    have hlt : l.cur_pos < l.source.length := by omega
    have hpc : l.next_char.cur_char = l.peek := rfl
    rw [drop_cur l hlt, drop_peek l hplt, norm_text_cons_keep hw hc,
      norm_text_cons_keep hpw hph, hpc]
    rfl
  by_cases h1 : l.cur_char = '+'
  · rw [if_pos h1] at h
    injection h with h
    injection h with ht hl
    subst ht hl
    exact hsingle (by rw [h1]; decide) _ (by decide)
  rw [if_neg h1] at h
  by_cases h2 : l.cur_char = '-'
  · rw [if_pos h2] at h
    injection h with h
    injection h with ht hl
    subst ht hl
    exact hsingle (by rw [h2]; decide) _ (by decide)
  rw [if_neg h2] at h
  by_cases h3 : l.cur_char = '*'
  · rw [if_pos h3] at h
    injection h with h
    injection h with ht hl
    subst ht hl
    exact hsingle (by rw [h3]; decide) _ (by decide)
  rw [if_neg h3] at h
  by_cases h4 : l.cur_char = '/'
  · rw [if_pos h4] at h
    injection h with h
    injection h with ht hl
    subst ht hl
    exact hsingle (by rw [h4]; decide) _ (by decide)
  rw [if_neg h4] at h
  by_cases h5 : l.cur_char = '"'
  · exfalso
    apply hq
    rw [← h5]
    exact cur_mem l (pos_lt_of_cur_ne l (by rw [h5]; decide))
  rw [if_neg h5] at h
  by_cases h6 : l.cur_char = '!'
  · rw [if_pos h6] at h
    by_cases hp : l.peek = '='
    · rw [if_pos hp] at h
      injection h with h
      injection h with ht hl
      subst ht hl
      have hres := hdouble (by rw [hp]; decide) (by rw [hp]; rfl) (by rw [hp]; decide)
        TokenType.LtEq (by decide)
      exact hres
    · rw [if_neg hp] at h
      exact Except.noConfusion h
  rw [if_neg h6] at h
  by_cases h7 : l.cur_char = '='
  · rw [if_pos h7] at h
    by_cases hp : l.peek = '='
    · rw [if_pos hp] at h
      injection h with h
      injection h with ht hl
      subst ht hl
      have hres := hdouble (by rw [hp]; decide) (by rw [hp]; rfl) (by rw [hp]; decide)
        TokenType.EqEq (by decide)
      exact hres
    · rw [if_neg hp] at h
      injection h with h
      injection h with ht hl
      subst ht hl
      exact hsingle (by rw [h7]; decide) _ (by decide)
  rw [if_neg h7] at h
  by_cases h8 : l.cur_char = '>'
  · rw [if_pos h8] at h
    by_cases hp : l.peek = '='
    · rw [if_pos hp] at h
      injection h with h
      injection h with ht hl
      subst ht hl
      have hres := hdouble (by rw [hp]; decide) (by rw [hp]; rfl) (by rw [hp]; decide)
        TokenType.GtEq (by decide)
      exact hres
    · rw [if_neg hp] at h
      injection h with h
      injection h with ht hl
      subst ht hl
      exact hsingle (by rw [h8]; decide) _ (by decide)
  rw [if_neg h8] at h
  by_cases h9 : l.cur_char = '<'
  · rw [if_pos h9] at h
    by_cases hp : l.peek = '='
    · rw [if_pos hp] at h
      injection h with h
      injection h with ht hl
      subst ht hl
      have hres := hdouble (by rw [hp]; decide) (by rw [hp]; rfl) (by rw [hp]; decide)
        TokenType.LtEq (by decide)
      exact hres
    · rw [if_neg hp] at h
      injection h with h
      injection h with ht hl
      subst ht hl
      exact hsingle (by rw [h9]; decide) _ (by decide)
  rw [if_neg h9] at h
  by_cases hd : l.cur_char.isDigit = true
  · clear h
    obtain ⟨hA, hB, hC⟩ := get_token_digit_case l hd
      ((l.source.drop l.cur_pos).takeWhile Char.isDigit) rfl
      (l.cur_pos + ((l.source.drop l.cur_pos).takeWhile Char.isDigit).length) rfl
    set r1 := (l.source.drop l.cur_pos).takeWhile Char.isDigit with hr1
    set p1 := l.cur_pos + r1.length with hp1
    have hr1good : ∀ c ∈ r1, Lexer.is_ws c = false ∧ c ≠ '#' := by
      intro c hcm
      exact digit_not_ws (mem_takeWhile_sat hcm)
    by_cases hdot : l.source.getD p1 '\x00' = '.'
    · by_cases hdig : (l.source.getD (p1 + 1) '\x00').isDigit = true
      · have hgt := hC ((l.source.drop (p1 + 1)).takeWhile Char.isDigit) hdot hdig rfl
        have hcomb := horig.symm.trans hgt
        injection hcomb with hcomb
        injection hcomb with ht hl
        subst ht hl
        set r2 := (l.source.drop (p1 + 1)).takeWhile Char.isDigit with hr2
        refine ⟨rfl, fun hEof => absurd hEof (by simp), fun _ => ?_⟩
        have hp1lt : p1 < l.source.length := by
          by_contra hcon
          push_neg at hcon
          rw [getD_out _ _ hcon] at hdot
          exact absurd hdot (by decide)
        have hsplit1 := split_run l.source l.cur_pos Char.isDigit
        have hdropp1 : l.source.drop p1 = '.' :: l.source.drop (p1 + 1) := by
          rw [drop_cons_at l.source p1 hp1lt, hdot]
        have hsplit2 := split_run l.source (p1 + 1) Char.isDigit
        have hr2good : ∀ c ∈ r2, Lexer.is_ws c = false ∧ c ≠ '#' := by
          intro c hcm
          exact digit_not_ws (mem_takeWhile_sat hcm)
        have hgood : ∀ c ∈ r1 ++ '.' :: r2, Lexer.is_ws c = false ∧ c ≠ '#' := by
          intro c hcm
          rw [List.mem_append, List.mem_cons] at hcm
          rcases hcm with hcm | hcm | hcm
          · exact hr1good c hcm
          · subst hcm
            exact ⟨by decide, by decide⟩
          · exact hr2good c hcm
        rw [hsplit1, ← hr1, ← hp1, hdropp1, hsplit2, ← hr2]
        rw [show r1 ++ '.' :: (r2 ++ l.source.drop (p1 + 1 + r2.length)) =
          (r1 ++ '.' :: r2) ++ l.source.drop (p1 + 1 + r2.length) from by simp]
        exact norm_text_append_keep hgood _
      · rw [Bool.not_eq_true] at hdig
        exact Except.noConfusion (horig.symm.trans (hB hdot hdig))
    · have hgt := hA hdot
      have hcomb := horig.symm.trans hgt
      injection hcomb with hcomb
      injection hcomb with ht hl
      subst ht hl
      refine ⟨rfl, fun hEof => absurd hEof (by simp), fun _ => ?_⟩
      have hsplit1 := split_run l.source l.cur_pos Char.isDigit
      rw [hsplit1, ← hr1, ← hp1]
      exact norm_text_append_keep hr1good _
  rw [if_neg hd] at h
  by_cases ha : l.cur_char.isAlpha = true
  · clear h
    have hgt := get_token_alpha_case l ha
      ((l.source.drop l.cur_pos).takeWhile rust_is_alphanumeric) rfl
    have hcomb := horig.symm.trans hgt
    injection hcomb with hcomb
    injection hcomb with ht hl
    subst ht hl
    set r := (l.source.drop l.cur_pos).takeWhile rust_is_alphanumeric with hrr
    refine ⟨rfl, fun hEof => absurd hEof (classify_ident_ne_eof _), fun _ => ?_⟩
    have hrgood : ∀ c ∈ r, Lexer.is_ws c = false ∧ c ≠ '#' := by
      intro c hcm
      exact alnum_not_ws (mem_takeWhile_sat hcm)
    have hsplit := split_run l.source l.cur_pos rust_is_alphanumeric
    rw [hsplit, ← hrr]
    exact norm_text_append_keep hrgood _
  rw [if_neg ha] at h
  by_cases hn : l.cur_char = '\n'
  · rw [if_pos hn] at h
    injection h with h
    injection h with ht hl
    subst ht hl
    exact hsingle (by rw [hn]; decide) _ (by decide)
  rw [if_neg hn] at h
  by_cases hz : l.cur_char = '\x00'
  · rw [if_pos hz] at h
    injection h with h
    injection h with ht hl
    subst ht hl
    have hge : l.source.length ≤ l.cur_pos := by
      by_contra hcon
      push_neg at hcon
      exact h0 (hz ▸ cur_mem l hcon)
    refine ⟨rfl, fun _ => ?_, fun hne => absurd rfl hne⟩
    rw [List.drop_eq_nil_of_le hge]
    rfl
  rw [if_neg hz] at h
  exact Except.noConfusion h

lemma dropWhile_head_false {p : Char → Bool} : ∀ (xs : Str) (c : Char) (rest : Str),
    xs.dropWhile p = c :: rest → p c = false := by
  intro xs
  induction xs with
  | nil => intro c rest h; simp at h
  | cons x xs ih =>
    intro c rest h
    rw [List.dropWhile_cons] at h
    by_cases hx : p x = true
    · rw [if_pos hx] at h
      exact ih c rest h
    · rw [if_neg hx] at h
      injection h with h1 h2
      subst h1
      rwa [Bool.not_eq_true] at hx

lemma cur_after_skip (S : Str) (pos : Nat) (p : Char → Bool) (hp : p '\x00' = false) :
    p (S.getD (pos + ((S.drop pos).takeWhile p).length) '\x00') = false := by
  set n := pos + ((S.drop pos).takeWhile p).length with hn
  by_cases hlt : n < S.length
  · have hcons := drop_cons_at S n hlt
    have hdw := drop_pos_run S pos p
    rw [hn] at hcons
    rw [hcons] at hdw
    exact dropWhile_head_false _ _ _ hdw.symm
  · rw [getD_out _ _ (by omega)]
    exact hp

/-- Whitespace skipping changes neither the source nor the normal form of
the unread part, and stops on a non-whitespace character. -/
lemma skip_ws_facts (l : Lexer) :
    (l.skip_whitespace).source = l.source ∧
    norm_text (l.source.drop l.cur_pos) =
      norm_text (l.source.drop (l.skip_whitespace).cur_pos) ∧
    Lexer.is_ws (l.skip_whitespace).cur_char = false := by
  rw [skip_whitespace_spec l]
  refine ⟨rfl, ?_, ?_⟩
  · have hsplit := split_run l.source l.cur_pos Lexer.is_ws
    conv_lhs => rw [hsplit]
    rw [norm_text_ws_run (fun c hcm => mem_takeWhile_sat hcm) _]
  · exact cur_after_skip l.source l.cur_pos Lexer.is_ws (by decide)

/-- Single consumption step of `Lexer::get_token` from any state of a
quote-free, NUL-free source. -/
lemma get_token_consume (l0 : Lexer) (h0 : '\x00' ∉ l0.source) (hq : '"' ∉ l0.source)
    {t : Token} {l' : Lexer} (h : l0.get_token = .ok (t, l')) :
    l'.source = l0.source ∧
    (t.kind = .Eof → norm_text (l0.source.drop l0.cur_pos) = []) ∧
    (t.kind ≠ .Eof →
      norm_text (l0.source.drop l0.cur_pos) = t.text ++ norm_text (l0.source.drop l'.cur_pos)) := by
  obtain ⟨hwsrc, hwnorm, hwcur⟩ := skip_ws_facts l0
  rw [Lexer.get_token] at h
  cases hsc : (l0.skip_whitespace).skip_comment with
  | error e =>
    rw [hsc] at h
    exact Except.noConfusion h
  | ok l1 =>
    rw [hsc] at h
    dsimp only at h
    obtain ⟨hsrc1, hcase⟩ := skip_comment_ok _ l1 hsc
    have hsrc1' : l1.source = l0.source := by rw [hsrc1, hwsrc]
    have hkey : Lexer.is_ws l1.cur_char = false ∧ l1.cur_char ≠ '#' ∧
        norm_text (l0.source.drop (l0.skip_whitespace).cur_pos) =
          norm_text (l0.source.drop l1.cur_pos) := by
      rcases hcase with ⟨hhash, hnl1, hdrop1⟩ | ⟨hnh, rfl⟩
      · refine ⟨by rw [hnl1]; decide, by rw [hnl1]; decide, ?_⟩
        have hlt : (l0.skip_whitespace).cur_pos < (l0.skip_whitespace).source.length :=
          pos_lt_of_cur_ne _ (by rw [hhash]; decide)
        rw [hwsrc] at hlt
        have hcons : l0.source.drop (l0.skip_whitespace).cur_pos =
            '#' :: l0.source.drop ((l0.skip_whitespace).cur_pos + 1) := by
          have h1 := drop_cons_at l0.source (l0.skip_whitespace).cur_pos hlt
          rw [show l0.source.getD (l0.skip_whitespace).cur_pos '\x00' =
            (l0.skip_whitespace).cur_char from by rw [Lexer.cur_char, hwsrc], hhash] at h1
          exact h1
        rw [hcons, norm_text_comment]
        have hdrop1' : l0.source.drop l1.cur_pos =
            ((l0.source.drop ((l0.skip_whitespace).cur_pos + 1)).dropWhile
              (fun c => !(c = '\n'))) := by
          rw [← hsrc1', hdrop1, hsrc1, hwsrc, hcons, List.dropWhile_cons]
          simp
        rw [hdrop1']
      · exact ⟨hwcur, hnh, rfl⟩
    obtain ⟨hl1ws, hl1hash, hl1norm⟩ := hkey
    have hws1 : l1.skip_whitespace = l1 := skip_whitespace_id l1 hl1ws
    have hsc1 : l1.skip_comment = .ok l1 := by rw [Lexer.skip_comment, if_neg hl1hash]
    have hgt1 : l1.get_token = .ok (t, l') := by
      rw [Lexer.get_token, hws1, hsc1]
      exact h
    obtain ⟨hsrcC, hEofC, hTokC⟩ := get_token_consume_core l1 hl1ws hl1hash
      (by rw [hsrc1']; exact h0) (by rw [hsrc1']; exact hq) hgt1
    refine ⟨by rw [hsrcC, hsrc1'], ?_, ?_⟩
    · intro hk
      rw [hwnorm, hl1norm]
      have := hEofC hk
      rwa [hsrc1'] at this
    · intro hk
      rw [hwnorm, hl1norm]
      have := hTokC hk
      rwa [hsrc1'] at this

/-- Concatenating the texts of all tokens reproduces the normal form of the
unread source. -/
lemma tokenize_norm : ∀ (f : Nat) (l : Lexer) (toks : List Token),
    '\x00' ∉ l.source → '"' ∉ l.source →
    tokenize f l = .ok toks →
    (toks.map Token.text).flatten = norm_text (l.source.drop l.cur_pos) := by
  intro f
  induction f with
  | zero =>
    intro l toks h0 hq h
    simp [tokenize] at h
  | succ f ih =>
    intro l toks h0 hq h
    rw [tokenize] at h
    cases hg : l.get_token with
    | error e =>
      rw [hg] at h
      exact Except.noConfusion h
    | ok p =>
      obtain ⟨t, l'⟩ := p
      rw [hg] at h
      dsimp only at h
      obtain ⟨hsrc, hEof, hTok⟩ := get_token_consume l h0 hq hg
      by_cases hk : t.kind = .Eof
      · rw [if_pos hk] at h
        injection h with h
        subst h
        rw [hEof hk]
        rfl
      · rw [if_neg hk] at h
        cases ht : tokenize f l' with
        | error e =>
          rw [ht] at h
          exact Except.noConfusion h
        | ok ts =>
          rw [ht] at h
          dsimp only at h
          injection h with h
          subst h
          have hrest := ih l' ts (hsrc ▸ h0) (hsrc ▸ hq) ht
          rw [List.map_cons, List.flatten_cons, hrest, hsrc, hTok hk]

/-- C4, amended: the unrestricted claim is false (see
the counterexample below: string tokens drop their delimiting quotes, and
a NUL byte ends lexing early), so it is corrected to sources without string
literals and without embedded NUL bytes.  For those, concatenating the
`text` fields of all tokens reproduces the input (with its appended final
newline) up to removal of comments and of skipped whitespace — the normal
form computed by `norm_text`.  Newlines are significant and survive both in
the input's normal form and as `Newline` token texts. -/
theorem claim_C4_token_text_concat :
    ∀ (src : Str) (f : Nat) (toks : List Token),
      '"' ∉ src → '\x00' ∉ src →
      tokenize f (Lexer.new src) = .ok toks →
      (toks.map Token.text).flatten = norm_text (src ++ ['\n']) := by
  intro src f toks hq h0 htok
  have h1 := tokenize_norm f (Lexer.new src) toks ?_ ?_ htok
  · simpa [Lexer.new] using h1
  · simp only [Lexer.new, List.mem_append]
    rintro (hm | hm)
    · exact h0 hm
    · simp at hm
  · simp only [Lexer.new, List.mem_append]
    rintro (hm | hm)
    · exact hq hm
    · simp at hm

/-- Tokens of the program used as the C4 witness. -/
def c4_toks : List Token :=
  match tokenize 99 (Lexer.new "IF 1>2 THEN # c\nENDIF\n".toList) with
  | .ok ts => ts
  | .error _ => []

/-- Witness for the C4 theorem at a concrete program containing whitespace
and a comment. -/
theorem claim_C4_token_text_concat_witness :
    (c4_toks.map Token.text).flatten = norm_text ("IF 1>2 THEN # c\nENDIF\n".toList ++ ['\n']) :=
  claim_C4_token_text_concat "IF 1>2 THEN # c\nENDIF\n".toList 99 c4_toks
    (by decide) (by decide) (by decide)

/-! Explicit-iteration-order model of the deferred label check (C9). -/


/-- `Parser::program` with the iteration order of the referenced-label
`HashSet` made explicit: the deferred check visits the set in the order
`ord` produces.  This is the only place the Rust code iterates a `HashSet`
(membership tests and inserts cannot observe order), hence the only
run-to-run nondeterminism of the pipeline. -/
def program_iter (ord : List Str → List Str) (f : Nat) (st : PState) : Except CompErr PState :=
  let st1 := (st.header_line "#include <stdio.h>".toList).header_line "int main(void)\x7b".toList
  match skip_newlines f st1 with
  | .error e => .error e
  | .ok st2 =>
    match stmt_go f .Eof st2 with
    | .error e => .error e
    | .ok st3 =>
      let st4 := (st3.emit_line "return 0;".toList).emit_line "\x7d".toList
      match label_check (ord st4.labels_gotoed) st4.labels_declared with
      | .error e => .error e
      | .ok _ => .ok st4

/-- Whole pipeline with the label-set iteration order explicit. -/
def compile_iter (ord : List Str → List Str) (f : Nat) (src : Str) : Except CompErr Str :=
  let st0 : PState :=
    { lexer := Lexer.new src
      cur_token := ⟨[], .Unknown⟩
      peek_token := ⟨[], .Unknown⟩
      symbols := []
      labels_declared := []
      labels_gotoed := []
      header := []
      code := [] }
  match st0.next_token with
  | .error e => .error e
  | .ok st1 =>
    match st1.next_token with
    | .error e => .error e
    | .ok st2 =>
      match program_iter ord f st2 with
      | .error e => .error e
      | .ok st => .ok (st.header ++ st.code)

lemma label_check_isOk_iff (g d : List Str) :
    (label_check g d).isOk = true ↔ ∀ x ∈ g, x ∈ d := by
  unfold label_check
  cases hf : g.filter (fun x => decide (x ∉ d)) with
  | nil =>
    constructor
    · intro _ x hx
      by_contra hxd
      have hmem : x ∈ g.filter (fun x => decide (x ∉ d)) :=
        List.mem_filter.mpr ⟨hx, by simpa using hxd⟩
      rw [hf] at hmem
      simp at hmem
    · intro _
      rfl
  | cons y ys =>
    constructor
    · intro hok
      simp [Except.isOk, Except.toBool] at hok
    · intro hall
      exfalso
      have hmem : y ∈ g.filter (fun x => decide (x ∉ d)) := by
        rw [hf]
        exact List.mem_cons_self y ys
      obtain ⟨hyg, hyd⟩ := List.mem_filter.mp hmem
      simp only [decide_eq_true_eq] at hyd
      exact hyd (hall y hyg)

lemma label_check_perm_isOk {g₁ g₂ : List Str} (hp : g₁.Perm g₂) (d : List Str) :
    (label_check g₁ d).isOk = (label_check g₂ d).isOk := by
  rw [Bool.eq_iff_iff, label_check_isOk_iff, label_check_isOk_iff]
  constructor <;> intro h x hx
  · exact h x (hp.mem_iff.mpr hx)
  · exact h x (hp.mem_iff.mp hx)

/-- The iteration order of the deferred label check cannot change whether
`program` succeeds, nor the resulting state on success. -/
lemma program_iter_congr (ord₁ ord₂ : List Str → List Str)
    (h₁ : ∀ l, (ord₁ l).Perm l) (h₂ : ∀ l, (ord₂ l).Perm l) (f : Nat) (st : PState) :
    ((program_iter ord₁ f st).isOk = (program_iter ord₂ f st).isOk) ∧
    (∀ s₁ s₂, program_iter ord₁ f st = .ok s₁ → program_iter ord₂ f st = .ok s₂ →
      s₁ = s₂) := by
  simp only [program_iter]
  cases hsn : skip_newlines f
      ((st.header_line "#include <stdio.h>".toList).header_line "int main(void)\x7b".toList) with
  | error e =>
    exact ⟨rfl, fun s₁ s₂ hh _ => absurd hh (by simp)⟩
  | ok st2 =>
    dsimp only
    cases hsg : stmt_go f .Eof st2 with
    | error e =>
      exact ⟨rfl, fun s₁ s₂ hh _ => absurd hh (by simp)⟩
    | ok st3 =>
      dsimp only
      have hperm : (ord₁ (((st3.emit_line "return 0;".toList).emit_line "\x7d".toList).labels_gotoed)).Perm
          (ord₂ (((st3.emit_line "return 0;".toList).emit_line "\x7d".toList).labels_gotoed)) :=
        (h₁ _).trans (h₂ _).symm
      have hok := label_check_perm_isOk hperm
        (((st3.emit_line "return 0;".toList).emit_line "\x7d".toList).labels_declared)
      cases hl1 : label_check
          (ord₁ (((st3.emit_line "return 0;".toList).emit_line "\x7d".toList).labels_gotoed))
          (((st3.emit_line "return 0;".toList).emit_line "\x7d".toList).labels_declared) with
      | error e1 =>
        rw [hl1] at hok
        cases hl2 : label_check
            (ord₂ (((st3.emit_line "return 0;".toList).emit_line "\x7d".toList).labels_gotoed))
            (((st3.emit_line "return 0;".toList).emit_line "\x7d".toList).labels_declared) with
        | error e2 =>
          exact ⟨rfl, fun s₁ s₂ hh _ => absurd hh (by simp)⟩
        | ok u =>
          rw [hl2] at hok
          simp [Except.isOk, Except.toBool] at hok
      | ok u1 =>
        rw [hl1] at hok
        cases hl2 : label_check
            (ord₂ (((st3.emit_line "return 0;".toList).emit_line "\x7d".toList).labels_gotoed))
            (((st3.emit_line "return 0;".toList).emit_line "\x7d".toList).labels_declared) with
        | error e2 =>
          rw [hl2] at hok
          simp [Except.isOk, Except.toBool] at hok
        | ok u2 =>
          refine ⟨rfl, fun s₁ s₂ hh1 hh2 => ?_⟩
          injection hh1 with hh1
          injection hh2 with hh2
          rw [← hh1, ← hh2]

lemma compile_iter_congr (ord₁ ord₂ : List Str → List Str)
    (h₁ : ∀ l, (ord₁ l).Perm l) (h₂ : ∀ l, (ord₂ l).Perm l) (f : Nat) (src : Str) :
    ((compile_iter ord₁ f src).isOk = (compile_iter ord₂ f src).isOk) ∧
    (∀ o₁ o₂, compile_iter ord₁ f src = .ok o₁ → compile_iter ord₂ f src = .ok o₂ →
      o₁ = o₂) := by
  simp only [compile_iter]
  cases h0 : PState.next_token
      { lexer := Lexer.new src, cur_token := ⟨[], .Unknown⟩, peek_token := ⟨[], .Unknown⟩,
        symbols := [], labels_declared := [], labels_gotoed := [], header := [],
        code := [] } with
  | error e =>
    exact ⟨rfl, fun o₁ o₂ hh _ => absurd hh (by simp)⟩
  | ok st1 =>
    dsimp only
    cases h1 : st1.next_token with
    | error e =>
      exact ⟨rfl, fun o₁ o₂ hh _ => absurd hh (by simp)⟩
    | ok st2 =>
      dsimp only
      obtain ⟨hok, huniq⟩ := program_iter_congr ord₁ ord₂ h₁ h₂ f st2
      cases hp1 : program_iter ord₁ f st2 with
      | error e1 =>
        rw [hp1] at hok
        cases hp2 : program_iter ord₂ f st2 with
        | error e2 =>
          exact ⟨rfl, fun o₁ o₂ hh _ => absurd hh (by simp)⟩
        | ok u =>
          rw [hp2] at hok
          simp [Except.isOk, Except.toBool] at hok
      | ok u1 =>
        rw [hp1] at hok
        cases hp2 : program_iter ord₂ f st2 with
        | error e2 =>
          rw [hp2] at hok
          simp [Except.isOk, Except.toBool] at hok
        | ok u2 =>
          refine ⟨rfl, fun o₁ o₂ hh1 hh2 => ?_⟩
          injection hh1 with hh1
          injection hh2 with hh2
          rw [← hh1, ← hh2, huniq u1 u2 hp1 hp2]

lemma program_iter_id : program_iter (fun l => l) = program := rfl

lemma compile_iter_id (f : Nat) (src : Str) :
    compile_iter (fun l => l) f src = compile f src := by
  simp only [compile_iter, compile, compile_st]
  cases h0 : PState.next_token
      { lexer := Lexer.new src, cur_token := ⟨[], .Unknown⟩, peek_token := ⟨[], .Unknown⟩,
        symbols := [], labels_declared := [], labels_gotoed := [], header := [],
        code := [] } with
  | error e => rfl
  | ok st1 =>
    dsimp only
    cases h1 : st1.next_token with
    | error e => rfl
    | ok st2 =>
      dsimp only
      rw [program_iter_id]

/-- C9: compiling the same source twice yields identical results. The only
nondeterminism in the Rust program is the iteration order of the `HashSet`
`labels_gotoed` in the deferred label check at the end of `Parser::program`;
`compile_iter` exposes that order as an explicit parameter `ord` (any
permutation of the set's elements). For any two admissible orders the
success/failure outcome coincides and the emitted C text of two successful
runs is identical; and the canonical order recovers `compile` itself. -/
theorem claim_C9_deterministic :
    (∀ (ord₁ ord₂ : List Str → List Str),
      (∀ l, (ord₁ l).Perm l) → (∀ l, (ord₂ l).Perm l) →
      ∀ (f : Nat) (src : Str),
        ((compile_iter ord₁ f src).isOk = (compile_iter ord₂ f src).isOk) ∧
        (∀ o₁ o₂, compile_iter ord₁ f src = .ok o₁ →
          compile_iter ord₂ f src = .ok o₂ → o₁ = o₂)) ∧
    (∀ (f : Nat) (src : Str), compile_iter (fun l => l) f src = compile f src) :=
  ⟨fun ord₁ ord₂ h₁ h₂ f src => compile_iter_congr ord₁ ord₂ h₁ h₂ f src,
   compile_iter_id⟩

def c9_out_id : Str :=
  match compile_iter (fun l => l) 99 "GOTO L\nLABEL L\n".toList with
  | .ok o => o
  | .error _ => []

def c9_out_rev : Str :=
  match compile_iter List.reverse 99 "GOTO L\nLABEL L\n".toList with
  | .ok o => o
  | .error _ => []

/-- C9 witness: the theorem applied with the identity order and the reversed
order, on a failing program (two undeclared labels) and a succeeding one. -/
theorem claim_C9_deterministic_witness :
    ((compile_iter (fun l => l) 99 "GOTO A\nGOTO B\n".toList).isOk
        = (compile_iter List.reverse 99 "GOTO A\nGOTO B\n".toList).isOk) ∧
    c9_out_id = c9_out_rev ∧
    compile_iter (fun l => l) 99 "GOTO L\nLABEL L\n".toList
        = compile 99 "GOTO L\nLABEL L\n".toList := by
  refine ⟨(claim_C9_deterministic.1 (fun l => l) List.reverse
      (fun l => List.Perm.refl l) (fun l => List.reverse_perm l)
      99 "GOTO A\nGOTO B\n".toList).1,
    ?_, claim_C9_deterministic.2 99 "GOTO L\nLABEL L\n".toList⟩
  exact (claim_C9_deterministic.1 (fun l => l) List.reverse
      (fun l => List.Perm.refl l) (fun l => List.reverse_perm l)
      99 "GOTO L\nLABEL L\n".toList).2 c9_out_id c9_out_rev (by decide) (by decide)

/-! Counterexamples to the unrestricted token-text concatenation claim (C4). -/

/-- Tokens of the string-literal counterexample program. -/
def c4_cex_toks : List Token :=
  match tokenize 99 (Lexer.new "PRINT \"hi\"\n".toList) with
  | .ok ts => ts
  | .error _ => []

/-- Tokens of the NUL-byte counterexample program. -/
def c4_cex_nul_toks : List Token :=
  match tokenize 99 (Lexer.new "PRINT 1\n\x00X".toList) with
  | .ok ts => ts
  | .error _ => []

/-- C4 counterexample: the frozen claim fails on valid programs. For
`PRINT "hi"` the string token's text drops the delimiting quotes, which are
neither comments nor whitespace, so the concatenated token text differs from
the normalized source; and a source containing a NUL byte compiles (the
byte-reading lexer treats NUL as end of input) while the text after the NUL
never appears in any token. -/
theorem claim_C4_counterexample :
    tokenize 99 (Lexer.new "PRINT \"hi\"\n".toList) = .ok c4_cex_toks ∧
    (compile 99 "PRINT \"hi\"\n".toList).isOk = true ∧
    (c4_cex_toks.map Token.text).flatten ≠ norm_text ("PRINT \"hi\"\n".toList ++ ['\n']) ∧
    tokenize 99 (Lexer.new "PRINT 1\n\x00X".toList) = .ok c4_cex_nul_toks ∧
    (compile 99 "PRINT 1\n\x00X".toList).isOk = true ∧
    (c4_cex_nul_toks.map Token.text).flatten ≠ norm_text ("PRINT 1\n\x00X".toList ++ ['\n']) :=
  ⟨by decide, by decide, by decide, by decide, by decide, by decide⟩
